import Mathlib

/-!
# Verification of the mastra-eval-template RAG pipeline

A shallow embedding, in Lean 4, of the pure computational core of the
repository's ingestion / retrieval pipeline, together with proofs about it.

Modelling conventions, used throughout:

* A JavaScript string is modelled as `Text := List Char`.  JS string methods
  (`split`, `trim`, `slice`, `join`, `padStart`, …) are modelled by recursive
  functions on `List Char` whose behaviour is derived, case by case, from the
  ECMAScript semantics of the concrete regular expressions appearing in the
  source.  Each such function carries a comment naming the source construct.
* JS numbers are modelled exactly: integer-valued quantities as `ℤ`/`ℕ`,
  fractional constants (`1.3`, `overlapRatio`, scores…) as `ℚ`.
  `Math.floor`/`Math.ceil` become `Int.floor`/`Int.ceil`.
* `async` functions that can `throw` are modelled as pure functions into
  `Except`; the state they act on (a LanceDB table, the fetch responses seen
  by a retry loop) is passed explicitly.
* Unbounded `for`-loops whose index is advanced by a computed step are
  modelled with an explicit iteration budget (`fuel`).  In the source these
  loops terminate exactly when the step is positive; the theorem
  `chunking_step_positive` shows the budget used here is then large enough,
  so on that domain the model agrees with the source.
-/

namespace MastraEval

/-! ## Text primitives -/

abbrev Text := List Char

/-- JS `\s` restricted to the ASCII whitespace characters that can occur in
the repository's data: space, tab, newline, carriage return, vertical tab,
form feed. -/
def isWs (c : Char) : Bool :=
  c = ' ' || c = '\t' || c = '\n' || c = '\r' || c = '\x0b' || c = '\x0c'

/-- JS `\w`, i.e. `[A-Za-z0-9_]`. -/
def isWordChar (c : Char) : Bool :=
  ('a' ≤ c && c ≤ 'z') || ('A' ≤ c && c ≤ 'Z') || ('0' ≤ c && c ≤ '9') || c = '_'

/-- Core of `String.prototype.split(/X+/)` for a single-character class `X`
given by `p`: returns (first segment, later segments).  The string is cut at
every maximal run of `p`-characters; an empty segment is produced before a
leading run and after a trailing run, matching the JS behaviour
(`" a ".split(/\s+/) = ["", "a", ""]`, `"".split(/\s+/) = [""]`). -/
def splitRuns (p : Char → Bool) : Text → Text × List Text
  | [] => ([], [])
  | c :: cs =>
    if p c then
      match cs.head? with
      | some d =>
        if p d then splitRuns p cs
        else ([], (splitRuns p cs).1 :: (splitRuns p cs).2)
      | none => ([], (splitRuns p cs).1 :: (splitRuns p cs).2)
    else
      (c :: (splitRuns p cs).1, (splitRuns p cs).2)

/-- JS `s.split(/X+/)` for the single-character class decided by `p`. -/
def splitOnRuns (p : Char → Bool) (s : Text) : List Text :=
  (splitRuns p s).1 :: (splitRuns p s).2

/-- JS `s.split(/\s+/)`. -/
def splitWs (s : Text) : List Text :=
  splitOnRuns isWs s

/-- JS `String.prototype.trim()`. -/
def jsTrim (s : Text) : Text :=
  ((s.dropWhile isWs).reverse.dropWhile isWs).reverse

/-- `Math.ceil(a / b)` for integers with `0 < b`, written so that the kernel
can compute it (`ℚ`'s ring operations are `irreducible`): `⌈a/b⌉ = -((-a)/b)`
with floor division. -/
def ceilDiv (a b : ℤ) : ℤ :=
  -((-a) / b)

/-- `Math.floor(n · r)` for an integer `n` and an exact rational ratio `r`,
computed on the reduced fraction: `⌊n·r⌋ = (n·r.num) / r.den`. -/
def floorScale (n : ℤ) (r : ℚ) : ℤ :=
  (n * r.num) / (r.den : ℤ)

/-- JS `Array.prototype.join(sep)`. -/
def joinSep (sep : Text) : List Text → Text
  | [] => []
  | [t] => t
  | t :: u :: rest => t ++ sep ++ joinSep sep (u :: rest)

/-- part_013 `estimateTokens`: `Math.ceil(text.split(/\s+/).length * 1.3)`,
with `1.3 = 13/10` exact (`estimateTokens_eq`). -/
def estimateTokens (text : Text) : ℤ :=
  ceilDiv (13 * (splitWs text).length) 10

/-- The sliding-window `for`-loop scheme shared by the chunking strategies:
`for (let i = 0; i < xs.length; i += step) push(xs.slice(i, min(len, i + size)))`,
with an explicit iteration budget `fuel`.  When `1 ≤ step` a budget of
`xs.length` iterations is exact (`slidingLoop_fuel_stable`); when `step = 0`
the source loop does not terminate and this model merely truncates. -/
def slidingLoop {α : Type} (xs : List α) (size step : Nat) : Nat → Nat → List (List α)
  | _, 0 => []
  | i, fuel + 1 =>
    if i < xs.length then
      ((xs.drop i).take size) :: slidingLoop xs size step (i + step) fuel
    else []

/-- Sliding windows over `xs` of width `size` advancing by `step`. -/
def slidingWindows {α : Type} (xs : List α) (size step : Nat) : List (List α) :=
  slidingLoop xs size step 0 xs.length

/-! ## Chunking (part_013, `chunk.ts`) — token strategy -/

/-- part_013 `splitByTokens`: `wordsPerChunk = Math.floor(maxTokens / 1.3)`,
i.e. `⌊10·maxTokens / 13⌋` exactly (`wordsPerChunk_eq`). -/
def wordsPerChunk (maxTokens : ℤ) : ℤ :=
  (10 * maxTokens) / 13

/-- part_013 `splitByTokens`: `overlapWords = Math.floor(wordsPerChunk * overlapRatio)`. -/
def overlapWords (maxTokens : ℤ) (r : ℚ) : ℤ :=
  floorScale (wordsPerChunk maxTokens) r

/-- Loop step of `splitByTokens`: `wordsPerChunk - overlapWords`. -/
def tokenStep (maxTokens : ℤ) (r : ℚ) : ℤ :=
  wordsPerChunk maxTokens - overlapWords maxTokens r

/-- part_013 `splitByTokens(text, maxTokens, overlapRatio)`: split into words on
`/\s+/`, return the text whole if it fits in one window, otherwise emit sliding
windows of `wordsPerChunk` words re-joined with single spaces. -/
def splitByTokens (text : Text) (maxTokens : ℤ) (r : ℚ) : List Text :=
  let words := splitWs text
  if (words.length : ℤ) ≤ wordsPerChunk maxTokens then [text]
  else
    (slidingWindows words (wordsPerChunk maxTokens).toNat (tokenStep maxTokens r).toNat).map
      (fun w => joinSep [' '] w)

/-! ## A small backtracking regular-expression engine

The metadata extractors of the repository are written with JS regular
expressions.  We embed the fragment they use as an AST (`Rx`) and give it a
continuation-passing backtracking matcher with the ECMAScript strategy:
alternatives are tried left to right, greedy quantifiers consume as much as
possible before backtracking, lazy ones as little, and a quantified body that
matches the empty string stops the iteration.  `fuel` bounds the recursion
depth; it is decremented on every structural step, and the budget used by
`matchHere` is far larger than any backtracking depth reachable on the
patterns of this repository, which all consume at least one character per
quantifier iteration. -/

/-- Regular-expression fragment used by the repository: character classes as
predicates, sequencing, alternation (tried in order), capturing groups,
bounded/unbounded greedy or lazy repetition, `^`/`$` anchors (with their
`m`-flag variants), and the word boundary `\b`. -/
inductive Rx : Type where
  | eps : Rx
  | ch (p : Char → Bool) : Rx
  | seq (a b : Rx) : Rx
  | alt (a b : Rx) : Rx
  | grp (idx : Nat) (a : Rx) : Rx
  | rep (a : Rx) (lo : Nat) (hi : Option Nat) (lazyQ : Bool) : Rx
  | bol (multiline : Bool) : Rx
  | eol (multiline : Bool) : Rx
  | wb : Rx

/-- Completed captures: (group index, start, stop), most recent first. -/
abbrev Caps := List (Nat × Nat × Nat)

/-- Is the character at index `i` a word character (out of range counts as no)? -/
def wordAt (s : Text) (i : Nat) : Bool :=
  match s[i]? with
  | some c => isWordChar c
  | none => false

/-- Backtracking matcher; `k` is the continuation receiving the position and
captures after the current node.  Returns the first success in ECMAScript
order. -/
def matR (s : Text) : Nat → Rx → Nat → Caps → (Nat → Caps → Option (Nat × Caps)) → Option (Nat × Caps)
  | 0, _, _, _, _ => none
  | fuel + 1, re, pos, caps, k =>
    match re with
    | .eps => k pos caps
    | .ch p =>
      match s[pos]? with
      | some c => if p c then k (pos + 1) caps else none
      | none => none
    | .seq a b => matR s fuel a pos caps (fun p1 c1 => matR s fuel b p1 c1 k)
    | .alt a b =>
      match matR s fuel a pos caps k with
      | some r => some r
      | none => matR s fuel b pos caps k
    | .grp idx a => matR s fuel a pos caps (fun p1 c1 => k p1 ((idx, pos, p1) :: c1))
    | .rep a lo hi lz =>
      match lo with
      | m + 1 =>
        matR s fuel a pos caps (fun p1 c1 =>
          matR s fuel (.rep a m (hi.map (fun h => h - 1)) lz) p1 c1 k)
      | 0 =>
        if hi = some 0 then k pos caps
        else if lz then
          match k pos caps with
          | some r => some r
          | none =>
            matR s fuel a pos caps (fun p1 c1 =>
              if p1 = pos then none
              else matR s fuel (.rep a 0 (hi.map (fun h => h - 1)) lz) p1 c1 k)
        else
          match matR s fuel a pos caps (fun p1 c1 =>
              if p1 = pos then none
              else matR s fuel (.rep a 0 (hi.map (fun h => h - 1)) lz) p1 c1 k) with
          | some r => some r
          | none => k pos caps
    | .bol ml =>
      if pos = 0 then k pos caps
      else if ml then
        match s[pos - 1]? with
        | some c => if c = '\n' then k pos caps else none
        | none => none
      else none
    | .eol ml =>
      if pos = s.length then k pos caps
      else if ml then
        match s[pos]? with
        | some c => if c = '\n' then k pos caps else none
        | none => none
      else none
    | .wb =>
      let left := if pos = 0 then false else wordAt s (pos - 1)
      if left ≠ wordAt s pos then k pos caps else none

/-- Try to match `re` at position `pos` of `s`. -/
def matchHere (s : Text) (re : Rx) (pos : Nat) : Option (Nat × Caps) :=
  matR s (1000 + 4 * s.length) re pos [] (fun p c => some (p, c))

/-- A match: the matched range and the captures. -/
structure RxMatch where
  start : Nat
  stop : Nat
  caps : Caps

def searchAux (s : Text) (re : Rx) : Nat → Nat → Option RxMatch
  | _, 0 => none
  | i, tries + 1 =>
    match matchHere s re i with
    | some (e, caps) => some ⟨i, e, caps⟩
    | none => searchAux s re (i + 1) tries

/-- JS `s.match(re)` without the `g` flag: the leftmost match. -/
def rxSearch (s : Text) (re : Rx) : Option RxMatch :=
  searchAux s re 0 (s.length + 1)

def substrRange (s : Text) (a b : Nat) : Text :=
  (s.drop a).take (b - a)

/-- Capture group `n` of a match (the last completed capture wins, as in JS);
an unmatched group yields the empty string. -/
def capStr (s : Text) (m : RxMatch) (n : Nat) : Text :=
  match m.caps.find? (fun e => e.1 == n) with
  | some e => substrRange s e.2.1 e.2.2
  | none => []

def matchedStr (s : Text) (m : RxMatch) : Text :=
  substrRange s m.start m.stop

def searchAllAux (s : Text) (re : Rx) : Nat → Nat → List RxMatch
  | _, 0 => []
  | i, tries + 1 =>
    if s.length < i then []
    else
      match searchAux s re i (s.length + 1 - i) with
      | some m => m :: searchAllAux s re (if m.stop = m.start then m.stop + 1 else m.stop) tries
      | none => []

/-- JS `s.match(/re/g)`: all matches, left to right, non-overlapping, a
zero-length match advancing by one position. -/
def rxSearchAll (s : Text) (re : Rx) : List RxMatch :=
  searchAllAux s re 0 (s.length + 1)

/-- Sequencing a list of nodes. -/
def rseq (l : List Rx) : Rx :=
  l.foldr Rx.seq Rx.eps

/-- Alternation over a list, tried left to right. -/
def ralts : List Rx → Rx
  | [] => Rx.eps
  | [r] => r
  | r :: s :: rest => Rx.alt r (ralts (s :: rest))

/-- A literal string. -/
def rlit (cs : Text) : Rx :=
  rseq (cs.map (fun c => Rx.ch (fun x => x = c)))

/-- A case-insensitive literal (the `i` flag on ASCII letters). -/
def rlitCI (cs : Text) : Rx :=
  rseq (cs.map (fun c => Rx.ch (fun x => x.toLower = c.toLower)))

def isDigitCh (c : Char) : Bool := '0' ≤ c && c ≤ '9'

def isUpperCh (c : Char) : Bool := 'A' ≤ c && c ≤ 'Z'

def isLowerCh (c : Char) : Bool := 'a' ≤ c && c ≤ 'z'

def isAlphaCh (c : Char) : Bool := isUpperCh c || isLowerCh c

/-- The class matched by `.` (anything but a line terminator). -/
def jsDotCh (c : Char) : Bool := !(c = '\n' || c = '\r')

/-- `\s+` -/
def rxWsPlus : Rx := Rx.rep (Rx.ch isWs) 1 none false

/-- `\s*` -/
def rxWsStar : Rx := Rx.rep (Rx.ch isWs) 0 none false

/-- `(.+)` as group `n`. -/
def rxDotPlusGrp (n : Nat) : Rx := Rx.grp n (Rx.rep (Rx.ch jsDotCh) 1 none false)

/-! ## Chunking (part_013, `chunk.ts`) — paragraph / sentence / section splitting -/

/-- The part of a whitespace run that follows its last newline. -/
def afterLastNl (run : Text) : Text :=
  (run.reverse.takeWhile (fun c => !(c = '\n'))).reverse

/-- JS `text.split(/\n\s*\n/)`.  Derivation of the separator semantics: the
pattern matches at a `\n` whose following maximal whitespace run contains at
least one further newline (`\s*` is greedy but must back off to leave a final
`\n`), and the match extends exactly through the last newline of that run;
whitespace after that last newline belongs to the next segment.  The scan is
written with an explicit iteration budget so that the kernel can compute it;
every step consumes at least one character (`splitParas_step_consumes`), so
the budget `text.length + 1` used by `splitParas` is never exhausted. -/
def splitParasGo : Nat → Text → Text → List Text
  | 0, _, acc => [acc.reverse]
  | _ + 1, [], acc => [acc.reverse]
  | fuel + 1, c :: rest, acc =>
    if c = '\n' ∧ '\n' ∈ rest.takeWhile isWs then
      acc.reverse ::
        splitParasGo fuel (afterLastNl (rest.takeWhile isWs) ++ rest.dropWhile isWs) []
    else
      splitParasGo fuel rest (c :: acc)

/-- JS `text.split(/\n\s*\n/)` (before the caller's emptiness filter). -/
def splitParas (text : Text) : List Text :=
  splitParasGo (text.length + 1) text []

/-- Does `l` begin with a markdown heading, i.e. does `(?=^#{1,6}\s)` hold at
the start of `l`?  The full `#`-run must have length 1–6 (a seventh `#` makes
every backtracking alternative fail) and be followed by a whitespace
character. -/
def isHeadingStart (l : Text) : Bool :=
  let m := (l.takeWhile (fun c => c = '#')).length
  decide (1 ≤ m) && decide (m ≤ 6) &&
    (match l[m]? with
     | some c => isWs c
     | none => false)

/-- JS `text.split(/(?=^#{1,6}\s)/m)`: cut before every line start that begins
a heading; a heading at position 0 produces no leading empty segment. -/
def splitSectionsGo : Text → Text → List Text
  | [], acc => [acc.reverse]
  | c :: rest, acc =>
    if c = '\n' && isHeadingStart rest then
      (c :: acc).reverse :: splitSectionsGo rest []
    else
      splitSectionsGo rest (c :: acc)

def splitSections (text : Text) : List Text :=
  splitSectionsGo text []

/-- `paragraphsPerChunk = Math.max(2, Math.floor(paragraphs.length / 4))` in
the no-headings fallback of part_013 `splitByParagraph`. -/
def paragraphWindowSize (n : Nat) : Nat := max 2 (n / 4)

/-- `overlapSize = Math.max(1, Math.floor(paragraphsPerChunk * overlapRatio))`. -/
def paragraphOverlap (n : Nat) (r : ℚ) : ℤ :=
  max 1 (floorScale (paragraphWindowSize n) r)

/-- Loop step of the fallback branch of `splitByParagraph`. -/
def paragraphStep (n : Nat) (r : ℚ) : ℤ :=
  (paragraphWindowSize n : ℤ) - paragraphOverlap n r

/-- part_013 `splitByParagraph(text, overlapRatio)`. -/
def splitByParagraph (text : Text) (r : ℚ) : List Text :=
  let sections := (splitSections text).filter (fun s => 0 < (jsTrim s).length)
  if 1 < sections.length then
    sections.flatMap (fun sec0 =>
      let sec := jsTrim sec0
      if 400 < estimateTokens sec then
        let paragraphs := (splitParas sec).filter (fun p => 0 < (jsTrim p).length)
        let ppc := max 2 (paragraphs.length / 3)
        (slidingWindows paragraphs ppc ppc).map (fun w => joinSep ('\n' :: '\n' :: []) w)
      else [sec])
  else
    let paragraphs := (splitParas text).filter (fun p => 0 < (jsTrim p).length)
    if paragraphs.length ≤ 2 then [text]
    else
      let n := paragraphs.length
      (slidingWindows paragraphs (paragraphWindowSize n) (paragraphStep n r).toNat).map
        (fun w => joinSep ('\n' :: '\n' :: []) w)

/-- `sentencesPerChunk = Math.max(3, Math.floor(sentences.length / 10))`. -/
def sentenceWindowSize (n : Nat) : Nat := max 3 (n / 10)

/-- `overlapSize = Math.max(1, Math.floor(sentencesPerChunk * overlapRatio))`. -/
def sentenceOverlap (n : Nat) (r : ℚ) : ℤ :=
  max 1 (floorScale (sentenceWindowSize n) r)

/-- Loop step of `splitBySentence`. -/
def sentenceStep (n : Nat) (r : ℚ) : ℤ :=
  (sentenceWindowSize n : ℤ) - sentenceOverlap n r

def isSentEnd (c : Char) : Bool := c = '.' || c = '!' || c = '?'

/-- part_013 `splitBySentence(text, overlapRatio)`. -/
def splitBySentence (text : Text) (r : ℚ) : List Text :=
  let sentences := (splitOnRuns isSentEnd text).filter (fun s => 0 < (jsTrim s).length)
  if sentences.length ≤ 1 then sentences
  else
    let n := sentences.length
    (slidingWindows sentences (sentenceWindowSize n) (sentenceStep n r).toNat).map
      (fun w => jsTrim (joinSep ('.' :: ' ' :: []) w) ++ ['.'])

/-- part_013 `splitBySection(text, overlapRatio)`: one window `[max(0, i -
overlap), min(n, i + 2))` per section index. -/
def splitBySection (text : Text) (r : ℚ) : List Text :=
  let sections := (splitSections text).filter (fun s => 0 < (jsTrim s).length)
  if sections.length ≤ 1 then splitByParagraph text r
  else
    let n := sections.length
    let ov := max 1 (floorScale n r)
    (List.range n).map (fun (i : Nat) =>
      let start : Nat := (max 0 ((i : ℤ) - ov)).toNat
      let stop : Nat := min n (i + 2)
      joinSep ['\n'] ((sections.drop start).take (stop - start)))

/-! ## Chunking (part_013) — chunk assembly -/

/-- part_013 `/^(#{1,6})\s+(.+)$/m`. -/
def chunkHeaderRe : Rx :=
  rseq [Rx.bol true, Rx.grp 1 (Rx.rep (Rx.ch (fun c => c = '#')) 1 (some 6) false),
        rxWsPlus, rxDotPlusGrp 2, Rx.eol true]

/-- part_013 `/^([A-Z][A-Za-z\s]{2,30}):?\s*$/m`. -/
def chunkSectionRe : Rx :=
  rseq [Rx.bol true,
        Rx.grp 1 (rseq [Rx.ch isUpperCh,
                        Rx.rep (Rx.ch (fun c => isAlphaCh c || isWs c)) 2 (some 30) false]),
        Rx.rep (Rx.ch (fun c => c = ':')) 0 (some 1) false,
        rxWsStar, Rx.eol true]

/-- part_013 `extractSection` (the chunking one): first heading line's text,
else a capitalized stand-alone line. -/
def extractSection (text : Text) : Option Text :=
  match rxSearch text chunkHeaderRe with
  | some m => some (jsTrim (capStr text m 2))
  | none =>
    match rxSearch text chunkSectionRe with
    | some m => some (jsTrim (capStr text m 1))
    | none => none

/-- JS `s.replace(/[^\w\s]/g, " ")`. -/
def replaceNonWordWithSpace (s : Text) : Text :=
  s.map (fun c => if !(isWordChar c || isWs c) then ' ' else c)

/-- JS `s.toLowerCase()` on the ASCII texts of this repository. -/
def jsToLowerText (s : Text) : Text :=
  s.map Char.toLower

/-- Insert `x` after every element `b` with `le b x`: the insertion step of a
stable insertion sort. -/
def stableInsert {α : Type} (le : α → α → Bool) (x : α) : List α → List α
  | [] => [x]
  | b :: bs => if le b x then b :: stableInsert le x bs else x :: b :: bs

/-- JS `Array.prototype.sort(cmp)` for a consistent comparator: a stable sort
with `le a b` meaning "`a` may stay before `b`" (i.e. `cmp(a,b) <= 0`).  Any
two stable sorts agree, so insertion sort models the engine's sort exactly. -/
def jsSortBy {α : Type} (le : α → α → Bool) (l : List α) : List α :=
  l.foldl (fun acc x => stableInsert le x acc) []

/-- A JS `Map` used as a counter: keys keep insertion order, existing keys are
bumped in place. -/
def bump : List (Text × Nat) → Text → Nat → List (Text × Nat)
  | [], w, k => [(w, k)]
  | (x, c) :: rest, w, k =>
    if x = w then (x, c + k) :: rest else (x, c) :: bump rest w k

def stopWordsChunk : List Text :=
  ["this", "that", "with", "have", "will", "from", "they", "been", "were",
   "said", "each", "which", "their", "time", "would", "there", "could",
   "other"].map String.toList

/-- part_013 `extractKeywords`: top-5 repeated non-stop words (JS `sort` is
stable, modelled by `jsSortBy`). -/
def extractKeywords (text : Text) : List Text :=
  let words := (splitWs (replaceNonWordWithSpace (jsToLowerText text))).filter
    (fun w => 3 < w.length)
  let wordCount := words.foldl (fun m w => bump m w 1) []
  ((jsSortBy (fun a b => b.2 ≤ a.2)
      (wordCount.filter (fun e => 1 < e.2 && !(stopWordsChunk.contains e.1)))).take 5).map
    (fun e => e.1)

/-- part_013 `generateChunkId`: `docId + "_chunk_" + String(seq).padStart(4, "0")`. -/
def generateChunkId (docId : Text) (seq : Nat) : Text :=
  docId ++ "_chunk_".toList ++
    (List.replicate (4 - (Nat.toDigits 10 seq).length) '0' ++ Nat.toDigits 10 seq)

/-- The `metadata` record of a part_013 `Chunk` (`section` is called
`sectionName` here because `section` is a Lean keyword). -/
structure ChunkMetadata where
  source : Text
  author : Option Text
  date : Option Text
  sectionName : Option Text
  keywords : List Text
  tokens : ℤ
  seq : Nat

/-- part_013 `Chunk`. -/
structure Chunk where
  id : Text
  docId : Text
  text : Text
  metadata : ChunkMetadata

/-- part_013 `ChunkingOptions.strategy` (`sect` stands for the source's
`"section"`, a Lean keyword). -/
inductive ChunkStrategy : Type where
  | paragraph : ChunkStrategy
  | sentence : ChunkStrategy
  | sect : ChunkStrategy
  | token : ChunkStrategy

/-- part_013 `ChunkingOptions`; `overlapR` is the source's `overlapRatio`
(default 0.1), `maxTokens` defaults to 512 — callers here always pass both. -/
structure ChunkingOptions where
  strategy : ChunkStrategy
  overlapR : ℚ
  maxTokens : ℤ

/-- parse.ts `ParsedDocument.metadata`, restricted to the fields that
part_013 reads out of the record (`source`, `author`, `date`). -/
structure DocSourceMetadata where
  source : Text
  author : Option Text
  date : Option Text

/-- parse.ts `ParsedDocument`. -/
structure ParsedDocument where
  docId : Text
  text : Text
  metadata : DocSourceMetadata

/-- part_013 `splitIntoChunks(doc, options)`: dispatch on the strategy,
re-split any chunk whose token estimate exceeds `maxTokens` with the token
strategy at zero overlap, drop chunks shorter than 10 trimmed characters, and
build the `Chunk` records. -/
def splitIntoChunks (doc : ParsedDocument) (options : ChunkingOptions) : List Chunk :=
  if doc.text.isEmpty || (jsTrim doc.text).isEmpty then []
  else
    let strategyChunks :=
      match options.strategy with
      | .paragraph => splitByParagraph doc.text options.overlapR
      | .sentence => splitBySentence doc.text options.overlapR
      | .sect => splitBySection doc.text options.overlapR
      | .token => splitByTokens doc.text options.maxTokens options.overlapR
    let capped := strategyChunks.flatMap (fun chunk =>
      if options.maxTokens < estimateTokens chunk then splitByTokens chunk options.maxTokens 0
      else [chunk])
    let kept := capped.filter (fun chunk => 10 ≤ (jsTrim chunk).length)
    kept.mapIdx (fun index text =>
      { id := generateChunkId doc.docId index
        docId := doc.docId
        text := jsTrim text
        metadata :=
          { source := doc.metadata.source
            author := doc.metadata.author
            date := doc.metadata.date
            sectionName := extractSection text
            keywords := extractKeywords text
            tokens := estimateTokens text
            seq := index } })

/-! ## Claim C4: a 3-paragraph document is split into 3 chunks, not 1 -/

/-- A document of exactly three blank-line-delimited paragraphs and no
heading-delimited sections. -/
def threeParaDoc : ParsedDocument :=
  { docId := "doc1".toList,
    text := "aaaaaaaaaaaa\n\nbbbbbbbbbbbb\n\ncccccccccccc".toList,
    metadata := { source := "sample.md".toList, author := none, date := none } }

/-- The options of the spec scenario: paragraph strategy, 10% overlap,
512-token budget. -/
def threeParaOpts : ChunkingOptions :=
  { strategy := ChunkStrategy.paragraph, overlapR := mkRat 1 10, maxTokens := 512 }

/-! ## Metadata extraction (`src/mastra/tools/ingestion/metadata.ts`)

The seven field extractors of `extractMetadataHybrid`, each a direct
transliteration of the source's regular expressions into the `Rx` engine.
Where a source function name collides with the chunking module
(`extractSection`, `extractKeywords`), the metadata version carries a `Meta`
suffix. -/

/-- First pattern that matches wins; returns its capture group `g`. -/
def firstMatchCap (text : Text) (g : Nat) : List Rx → Option Text
  | [] => none
  | p :: rest =>
    match rxSearch text p with
    | some m => some (capStr text m g)
    | none => firstMatchCap text g rest

/-- Like `firstMatchCap`, but a match whose capture is `bound` characters or
longer falls through to the next pattern, and the result is trimmed (the rule
of `extractTitle`). -/
def firstCapUnder (text : Text) (g : Nat) (bound : Nat) : List Rx → Option Text
  | [] => none
  | p :: rest =>
    match rxSearch text p with
    | some m =>
      let cap := capStr text m g
      if cap.length < bound then some (jsTrim cap) else firstCapUnder text g bound rest
    | none => firstCapUnder text g bound rest

/-- `([A-Za-z]+ \d{1,2}, \d{4})` — the date body shared by the two labelled
date patterns. -/
def dateBodyRe : Rx :=
  Rx.grp 1 (rseq [Rx.rep (Rx.ch isAlphaCh) 1 none false, Rx.ch (fun c => c = ' '),
    Rx.rep (Rx.ch isDigitCh) 1 (some 2) false, Rx.ch (fun c => c = ','),
    Rx.ch (fun c => c = ' '), Rx.rep (Rx.ch isDigitCh) 4 (some 4) false])

/-- The date-separator class: a dash or a slash. -/
def dateSepCh : Rx := Rx.ch (fun c => c = '-' || c = '/')

/-- `(?:^|\n)` in patterns without the `m` flag. -/
def startOrNl : Rx := Rx.alt (Rx.bol false) (Rx.ch (fun c => c = '\n'))

def monthNamesFull : List Text :=
  ["January", "February", "March", "April", "May", "June", "July", "August",
   "September", "October", "November", "December"].map String.toList

def monthNamesShort : List Text :=
  ["Jan", "Feb", "Mar", "Apr", "May", "Jun", "Jul", "Aug", "Sep", "Oct",
   "Nov", "Dec"].map String.toList

/-- metadata.ts `extractDate` patterns, in priority order. -/
def datePatterns : List Rx :=
  [rseq [rlit "**".toList, rlitCI "Date".toList, rlit "**:".toList, rxWsStar, dateBodyRe],
   rseq [startOrNl, rxWsStar, rlitCI "Date".toList, rlit ":".toList, rxWsStar, dateBodyRe],
   rseq [Rx.wb, Rx.grp 1 (rseq [Rx.rep (Rx.ch isDigitCh) 4 (some 4) false, dateSepCh,
     Rx.rep (Rx.ch isDigitCh) 1 (some 2) false, dateSepCh,
     Rx.rep (Rx.ch isDigitCh) 1 (some 2) false]), Rx.wb],
   rseq [Rx.wb, Rx.grp 1 (rseq [Rx.rep (Rx.ch isDigitCh) 1 (some 2) false, dateSepCh,
     Rx.rep (Rx.ch isDigitCh) 1 (some 2) false, dateSepCh,
     Rx.rep (Rx.ch isDigitCh) 4 (some 4) false]), Rx.wb],
   rseq [Rx.wb, Rx.grp 1 (rseq [ralts (monthNamesFull.map rlitCI), rxWsPlus,
     Rx.rep (Rx.ch isDigitCh) 1 (some 2) false,
     Rx.rep (Rx.ch (fun c => c = ',')) 0 (some 1) false, rxWsPlus,
     Rx.rep (Rx.ch isDigitCh) 4 (some 4) false]), Rx.wb],
   rseq [Rx.wb, Rx.grp 1 (rseq [ralts (monthNamesShort.map rlitCI),
     Rx.rep (Rx.ch (fun c => c = '.')) 0 (some 1) false, rxWsPlus,
     Rx.rep (Rx.ch isDigitCh) 1 (some 2) false,
     Rx.rep (Rx.ch (fun c => c = ',')) 0 (some 1) false, rxWsPlus,
     Rx.rep (Rx.ch isDigitCh) 4 (some 4) false]), Rx.wb]]

/-- metadata.ts `extractDate`: first pattern's capture, not trimmed. -/
def extractDate (text : Text) : Option Text :=
  firstMatchCap text 1 datePatterns

/-- `([A-Z][a-zA-Z\s]+?)` under the `i` flag (so `[A-Z]` is any letter),
followed by `(?:\n|$)`. -/
def authorNameLazyRe : Rx :=
  rseq [Rx.grp 1 (rseq [Rx.ch isAlphaCh,
    Rx.rep (Rx.ch (fun c => isAlphaCh c || isWs c)) 1 none true]),
    Rx.alt (Rx.ch (fun c => c = '\n')) (Rx.eol false)]

/-- `[A-Z][a-z]+(?:\s+[A-Z][a-z]+)*` (case-sensitive). -/
def properNameRe : Rx :=
  rseq [Rx.ch isUpperCh, Rx.rep (Rx.ch isLowerCh) 1 none false,
    Rx.rep (rseq [rxWsPlus, Rx.ch isUpperCh, Rx.rep (Rx.ch isLowerCh) 1 none false])
      0 none false]

/-- metadata.ts `extractAuthor` patterns.  The fourth literal is the two
characters `Â©` exactly as they appear in the source file. -/
def authorPatterns : List Rx :=
  [rseq [startOrNl, rxWsStar,
     ralts [rlitCI "By".toList, rlitCI "Author".toList, rlitCI "Written by".toList],
     rlit ":".toList, rxWsStar, authorNameLazyRe],
   rseq [rlit "**".toList, rlitCI "Author".toList, rlit "**:".toList, rxWsStar,
     authorNameLazyRe],
   rseq [startOrNl, rxWsStar, Rx.grp 1 properNameRe, rxWsStar,
     Rx.ch (fun c => c = '<'), Rx.rep (Rx.ch (fun c => !(c = '>'))) 1 none false,
     Rx.ch (fun c => c = '@'), Rx.rep (Rx.ch (fun c => !(c = '>'))) 1 none false,
     Rx.ch (fun c => c = '>')],
   rseq [rlit "Â©".toList, rxWsStar, Rx.rep (Rx.ch isDigitCh) 4 (some 4) false,
     rxWsStar, Rx.grp 1 properNameRe]]

/-- metadata.ts `extractAuthor`: first pattern's capture, trimmed. -/
def extractAuthor (text : Text) : Option Text :=
  (firstMatchCap text 1 authorPatterns).map jsTrim

/-- `[^.!?]` — note this negated class also matches newlines. -/
def notSentPunct (c : Char) : Bool := !(c = '.' || c = '!' || c = '?')

/-- `[^.!?\s]` -/
def notSentPunctWs (c : Char) : Bool := !(c = '.' || c = '!' || c = '?' || isWs c)

/-- metadata.ts `extractTitle` patterns. -/
def titlePatterns : List Rx :=
  [rseq [Rx.bol true, Rx.ch (fun c => c = '#'), rxWsPlus, rxDotPlusGrp 1, Rx.eol true],
   rseq [Rx.bol true, Rx.grp 1 (rseq [Rx.ch isUpperCh,
     Rx.rep (Rx.ch notSentPunct) 0 none false, Rx.ch notSentPunctWs]), Rx.eol true],
   rseq [Rx.bol true, rlitCI "Title".toList, rlit ":".toList, rxWsStar,
     rxDotPlusGrp 1, Rx.eol true]]

/-- metadata.ts `extractTitle`: first pattern whose capture is shorter than
100 characters, trimmed. -/
def extractTitle (text : Text) : Option Text :=
  firstCapUnder text 1 100 titlePatterns

/-- metadata.ts `extractSection` patterns (called `extractSectionMeta` here to
avoid colliding with the chunking module's `extractSection`). -/
def sectionMetaPatterns : List Rx :=
  [chunkHeaderRe,
   rseq [Rx.bol true, Rx.grp 1 (rseq [Rx.rep (Rx.ch isDigitCh) 1 none false,
     Rx.rep (Rx.ch (fun c => c = '.')) 0 (some 1) false, rxWsPlus, Rx.ch isUpperCh,
     Rx.rep (Rx.ch notSentPunct) 0 none false, Rx.ch notSentPunctWs]), Rx.eol true],
   rseq [Rx.bol true,
     Rx.grp 1 (Rx.rep (Rx.ch (fun c => isUpperCh c || isWs c)) 3 (some 30) false),
     Rx.eol true]]

/-- metadata.ts `extractSection`: `match[2] || match[1]` (an absent or empty
group 2 falls back to group 1), returned trimmed when shorter than 50
characters, else the next pattern is tried. -/
def extractSectionMeta (text : Text) : Option Text :=
  go sectionMetaPatterns
where
  go : List Rx → Option Text
    | [] => none
    | p :: rest =>
      match rxSearch text p with
      | some m =>
        let c2 := capStr text m 2
        let used := if c2.length ≠ 0 then c2 else capStr text m 1
        if used.length < 50 then some (jsTrim used) else go rest
      | none => go rest

def stopWordsMeta : List Text :=
  ["this", "that", "with", "have", "will", "from", "they", "been", "were",
   "said", "each", "which", "their", "time", "would", "there", "could",
   "other", "after", "first", "well", "also", "some", "what", "only",
   "when", "here", "more", "very", "much", "such", "most", "many",
   "these", "those", "than", "them", "into", "over", "just", "like",
   "through", "should", "before", "where", "being", "does", "about"].map String.toList

/-- `/\b[A-Z][a-z]{2,}\b/g` — capitalized words boosted by `extractKeywords`. -/
def capWordRe : Rx :=
  rseq [Rx.wb, Rx.ch isUpperCh, Rx.rep (Rx.ch isLowerCh) 2 none false, Rx.wb]

/-- metadata.ts `extractKeywords` (`Meta` suffix to distinguish it from the
chunking module's): frequency count of non-stop words over 3 characters,
capitalized words boosted by +2, top 8 with count above 1, stable-sorted by
count descending. -/
def extractKeywordsMeta (text : Text) : List Text :=
  let words := (splitWs (replaceNonWordWithSpace (jsToLowerText text))).filter
    (fun w => 3 < w.length)
  let wordCount := words.foldl
    (fun m w => if stopWordsMeta.contains w then m else bump m w 1) []
  let capitalized := (rxSearchAll text capWordRe).map (fun m => matchedStr text m)
  let wordCount2 := capitalized.foldl
    (fun m w =>
      let lower := jsToLowerText w
      if stopWordsMeta.contains lower then m else bump m lower 2) wordCount
  ((jsSortBy (fun a b => b.2 ≤ a.2) (wordCount2.filter (fun e => 1 < e.2))).take 8).map
    (fun e => e.1)

/-- `/\b[A-Za-z0-9._%+-]+@[A-Za-z0-9.-]+\.[A-Z|a-z]{2,}\b/g` -/
def emailRe : Rx :=
  rseq [Rx.wb,
    Rx.rep (Rx.ch (fun c => isAlphaCh c || isDigitCh c || c = '.' || c = '_' ||
      c = '%' || c = '+' || c = '-')) 1 none false,
    Rx.ch (fun c => c = '@'),
    Rx.rep (Rx.ch (fun c => isAlphaCh c || isDigitCh c || c = '.' || c = '-')) 1 none false,
    Rx.ch (fun c => c = '.'),
    Rx.rep (Rx.ch (fun c => isAlphaCh c || c = '|')) 2 none false, Rx.wb]

/-- `/https?:\/\/[^\s]+/g` -/
def urlRe : Rx :=
  rseq [rlit "http".toList, Rx.rep (Rx.ch (fun c => c = 's')) 0 (some 1) false,
    rlit "://".toList, Rx.rep (Rx.ch (fun c => !(isWs c))) 1 none false]

/-- `url.replace(/[.,;!?]$/, "")`: strip one trailing punctuation mark. -/
def stripTrailingPunct (u : Text) : Text :=
  match u.reverse with
  | c :: rest =>
    if c = '.' || c = ',' || c = ';' || c = '!' || c = '?' then rest.reverse else u
  | [] => u

/-- `[-.\s]` -/
def phoneSepCh (c : Char) : Bool := c = '-' || c = '.' || isWs c

/-- `/\b(?:\+?1[-.\s]?)?\(?[0-9]{3}\)?[-.\s]?[0-9]{3}[-.\s]?[0-9]{4}\b/g` -/
def phoneRe : Rx :=
  rseq [Rx.wb,
    Rx.rep (rseq [Rx.rep (Rx.ch (fun c => c = '+')) 0 (some 1) false,
      Rx.ch (fun c => c = '1'), Rx.rep (Rx.ch phoneSepCh) 0 (some 1) false]) 0 (some 1) false,
    Rx.rep (Rx.ch (fun c => c = '(')) 0 (some 1) false,
    Rx.rep (Rx.ch isDigitCh) 3 (some 3) false,
    Rx.rep (Rx.ch (fun c => c = ')')) 0 (some 1) false,
    Rx.rep (Rx.ch phoneSepCh) 0 (some 1) false,
    Rx.rep (Rx.ch isDigitCh) 3 (some 3) false,
    Rx.rep (Rx.ch phoneSepCh) 0 (some 1) false,
    Rx.rep (Rx.ch isDigitCh) 4 (some 4) false, Rx.wb]

/-- `/\b[A-Z][a-z]+(?:\s+[A-Z][a-z]+){1,3}(?:\s+(?:Inc|LLC|Corp|Company|Organization|University|College|Institute)\.?)?/g` -/
def orgRe : Rx :=
  rseq [Rx.wb, Rx.ch isUpperCh, Rx.rep (Rx.ch isLowerCh) 1 none false,
    Rx.rep (rseq [rxWsPlus, Rx.ch isUpperCh, Rx.rep (Rx.ch isLowerCh) 1 none false])
      1 (some 3) false,
    Rx.rep (rseq [rxWsPlus,
      ralts (["Inc", "LLC", "Corp", "Company", "Organization", "University",
        "College", "Institute"].map (fun s => rlit s.toList)),
      Rx.rep (Rx.ch (fun c => c = '.')) 0 (some 1) false]) 0 (some 1) false]

/-- Keep the first occurrence of each element (JS `[...new Set(l)]`). -/
def dedupFirstGo {α : Type} [DecidableEq α] (seen : List α) : List α → List α
  | [] => []
  | x :: xs =>
    if x ∈ seen then dedupFirstGo seen xs
    else x :: dedupFirstGo (x :: seen) xs

def dedupFirst {α : Type} [DecidableEq α] (l : List α) : List α :=
  dedupFirstGo [] l

/-- metadata.ts `extractEntities`: emails, URLs (trailing punctuation
stripped), phone numbers, and capitalized multi-word phrases under 50
characters; deduplicated, first ten. -/
def extractEntities (text : Text) : List Text :=
  let emails := (rxSearchAll text emailRe).map (fun m => matchedStr text m)
  let urls := ((rxSearchAll text urlRe).map (fun m => matchedStr text m)).map
    stripTrailingPunct
  let phones := (rxSearchAll text phoneRe).map (fun m => matchedStr text m)
  let orgs := ((rxSearchAll text orgRe).map (fun m => matchedStr text m)).filter
    (fun o => o.length < 50)
  (dedupFirst (emails ++ urls ++ phones ++ orgs)).take 10

/-- metadata.ts `extractSummary`: the first sentence of 20–200 trimmed
characters (with a period appended), else the first paragraph over 20
characters, truncated to 297 characters plus an ellipsis when over 300. -/
def extractSummary (text : Text) : Option Text :=
  let cleaned := jsTrim text
  let sentences := (splitOnRuns isSentEnd cleaned).filter
    (fun s => 20 < (jsTrim s).length)
  let fromParagraphs : Option Text :=
    match (splitParas cleaned).filter (fun p => 20 < (jsTrim p).length) with
    | p0 :: _ =>
      let fp := jsTrim p0
      if fp.length ≤ 300 then some fp
      else some (fp.take 297 ++ "...".toList)
    | [] => none
  match sentences with
  | s0 :: _ =>
    let firstSentence := jsTrim s0
    if 20 ≤ firstSentence.length ∧ firstSentence.length ≤ 200 then
      some (firstSentence ++ ['.'])
    else fromParagraphs
  | [] => fromParagraphs

/-- The record returned by metadata.ts `extractMetadataHybrid` (`section` is
`sectionName` here, a Lean keyword). -/
structure ExtractedMetadata where
  author : Option Text
  date : Option Text
  sectionName : Option Text
  keywords : List Text
  title : Option Text
  summary : Option Text
  entities : List Text
deriving DecidableEq

/-- metadata.ts `extractMetadataHybrid`: each field computed independently by
its own extractor. -/
def extractMetadataHybrid (text : Text) : ExtractedMetadata :=
  { date := extractDate text
    author := extractAuthor text
    title := extractTitle text
    sectionName := extractSectionMeta text
    keywords := extractKeywordsMeta text
    entities := extractEntities text
    summary := extractSummary text }

/-! ## Retrieval types (`src/mastra/tools/retrieval/types.ts`) -/

/-- types.ts `RetrievalErrorCode`. -/
inductive RetrievalErrorCode : Type where
  | EmptyResults : RetrievalErrorCode
  | FilterMismatch : RetrievalErrorCode
  | InvalidQuery : RetrievalErrorCode
  | EmbeddingError : RetrievalErrorCode
  | DatabaseError : RetrievalErrorCode
deriving DecidableEq

/-- types.ts `RetrievalError` (code, message, suggestions). -/
structure RetrievalError : Type where
  code : RetrievalErrorCode
  message : Text
  suggestions : List Text
deriving DecidableEq

/-- embed.ts `EmbeddingRecord` (`section` is `sectionName` here, a Lean
keyword; numbers exact: integer fields as `ℤ`, the timestamp as `ℚ`). -/
structure EmbeddingRecord : Type where
  id : Text
  docId : Text
  vector : List ℚ
  text : Text
  sectionName : Option Text
  date : Option Text
  source : Text
  keywords : Option Text
  tokens : ℤ
  seq : ℤ
  provider : Text
  model : Text
  embeddingDim : ℤ
  create_time : ℚ
deriving DecidableEq

/-- types.ts `RetrievedChunk`: an `EmbeddingRecord` row plus its similarity
score. -/
structure RetrievedChunk : Type where
  id : Text
  docId : Text
  text : Text
  sectionName : Option Text
  date : Option Text
  source : Text
  keywords : Option Text
  tokens : ℤ
  seq : ℤ
  provider : Text
  model : Text
  embeddingDim : ℤ
  create_time : ℚ
  score : ℚ
deriving DecidableEq

/-- types.ts `toRetrievedChunk`. -/
def toRetrievedChunk (record : EmbeddingRecord) (score : ℚ) : RetrievedChunk :=
  { id := record.id
    docId := record.docId
    text := record.text
    sectionName := record.sectionName
    date := record.date
    source := record.source
    keywords := record.keywords
    tokens := record.tokens
    seq := record.seq
    provider := record.provider
    model := record.model
    embeddingDim := record.embeddingDim
    create_time := record.create_time
    score := score }

/-! ## Retrieval (part_009, `retrieve.ts`): processing the raw search results

`retrieve` embeds the query, opens the table, runs the vector search and then
post-processes the raw results (part_009 lines 70–97).  The post-processing
is pure given the list of raw rows with their `_distance`, and is modelled by
`retrieveFromResults`: the `EmptyResults` check fires on the **raw** result
count, before scores are computed and compared against `minScore`. -/

/-- The suggestion list attached to the `EmptyResults` error (filter
suggestions only when filters were supplied). -/
def emptyResultsSuggestions (hasFilters : Bool) : List Text :=
  (if hasFilters then
    ["Try removing or relaxing filters".toList, "Check filter values match your data".toList]
   else []) ++ ["Try a different query or broader terms".toList]

/-- part_009 `retrieve`, steps 4–6: throw `EmptyResults` when the raw search
returned no rows; otherwise convert each distance `d` to the score
`max(0, 1 - d)`, drop scores below `minScore`, and stable-sort descending by
score. -/
def retrieveFromResults (results : List (EmbeddingRecord × ℚ)) (minScore : ℚ)
    (hasFilters : Bool) : Except RetrievalError (List RetrievedChunk) :=
  if results.length = 0 then
    .error { code := RetrievalErrorCode.EmptyResults,
             message := "No results found for query".toList,
             suggestions := emptyResultsSuggestions hasFilters }
  else
    .ok (jsSortBy (fun a b => b.score ≤ a.score)
      ((results.map (fun r => toRetrievedChunk r.1 (max 0 (1 - r.2)))).filter
        (fun ch => minScore ≤ ch.score)))

/-! ## Vector store gateway (part_007, `lancedb.ts`) -/

/-- The state visible to `getOrCreateTable`: each existing table's name and
the element count of its `FixedSizeList` vector column. -/
abbrev TableDb := List (Text × ℤ)

/-- The table object returned by `getOrCreateTable`, with the
`console.warn` text recorded when schema validation was swallowed. -/
structure OpenedTable : Type where
  name : Text
  dim : ℤ
  schemaWarning : Option Text
  created : Bool
deriving DecidableEq

/-- part_007 lines 74–86: the dimension validation of an opened table.  It
*throws* on mismatch — but its caller wraps it in a `try` whose `catch` only
logs a warning, so the error never escapes `getOrCreateTable`. -/
def validateDim (_tableName : Text) (existingDim : ℤ) (embeddingDim : ℤ) :
    Except Text Unit :=
  if existingDim ≠ embeddingDim then
    .error ("Dimension mismatch: table has different vector dimensions, set EMBEDDING_DIM or re-index".toList)
  else .ok ()

/-- part_007 `getOrCreateTable(tableName, embeddingDim)`.  An existing table
is opened; when a non-zero `embeddingDim` is supplied (JS truthiness:
`undefined` and `0` skip the check) the dimension is validated, but the
`catch (schemaError)` turns any mismatch into a warning and the table is
returned regardless.  A missing table is created with the supplied dimension,
or the call fails when none (or `0`) was given. -/
def getOrCreateTable (db : TableDb) (tableName : Text) (embeddingDim : Option ℤ) :
    Except Text OpenedTable :=
  match (db.find? (fun e => e.1 = tableName)).map (fun e => e.2) with
  | some existingDim =>
    match embeddingDim with
    | some d =>
      if d ≠ 0 then
        match validateDim tableName existingDim d with
        | .error msg =>
          .ok { name := tableName, dim := existingDim, schemaWarning := some msg,
                created := false }
        | .ok _ =>
          .ok { name := tableName, dim := existingDim, schemaWarning := none,
                created := false }
      else
        .ok { name := tableName, dim := existingDim, schemaWarning := none,
              created := false }
    | none =>
      .ok { name := tableName, dim := existingDim, schemaWarning := none,
            created := false }
  | none =>
    match embeddingDim with
    | some d =>
      if d ≠ 0 then
        .ok { name := tableName, dim := d, schemaWarning := none, created := true }
      else
        .error "Cannot create table without knowing embedding dimension".toList
    | none =>
      .error "Cannot create table without knowing embedding dimension".toList

/-! ## Upsert (part_008, `upsert.ts`)

The table is modelled as the list of its rows; `Table.add` appends,
`Table.delete(pred)` filters.  The `getOrCreateTable`/`ensureIndexes` calls
of the source do not change the row set and are omitted from the state
transition; the id-lookup query is modelled as always succeeding (its
`catch` merely assumes an empty table). -/

/-- part_008 `upsertEmbeddings(tableName, records)` acting on the table's
rows: reject mixed embedding dimensions, find which incoming ids already
exist, delete those rows by an `id IN (...)` predicate, then insert all
records. -/
def upsertEmbeddings (table : List EmbeddingRecord) (records : List EmbeddingRecord) :
    Except Text (List EmbeddingRecord) :=
  if records.length = 0 then .ok table
  else
    let dims := dedupFirst (records.map (fun r => r.embeddingDim))
    if 1 < dims.length then
      .error "Mixed embedding dimensions in batch".toList
    else
      let recordIds := records.map (fun r => r.id)
      let existingIds := (table.filter (fun row => row.id ∈ recordIds)).map
        (fun row => row.id)
      let updateRecords := records.filter (fun r => r.id ∈ existingIds)
      let updateIds := updateRecords.map (fun r => r.id)
      let afterDelete :=
        if 0 < updateRecords.length then
          table.filter (fun row => !(row.id ∈ updateIds))
        else table
      .ok (afterDelete ++ records)

/-! ## Fallback controller (`src/mastra/tools/retrieval/types.ts`,
`fallback.ts` part) -/

/-- types.ts `RetrievalFilters` (`section` is `sectionName` here). -/
structure RetrievalFilters : Type where
  sectionName : Option (List Text)
  dateAfter : Option Text
  dateBefore : Option Text
  docId : Option (List Text)
  source : Option (List Text)
  keywords : Option (List Text)
deriving DecidableEq

/-- fallback.ts `FallbackOptions`. -/
structure FallbackOptions : Type where
  enableFilterRelaxation : Bool
  enableQueryExpansion : Bool
  maxRetries : ℤ
deriving DecidableEq

/-- The record returned by `retrieveWithFallback`. -/
structure FallbackResult : Type where
  chunks : List RetrievedChunk
  fallbackUsed : Bool
  fallbackStrategy : Option Text
  originalError : Option RetrievalError
deriving DecidableEq

/-- The four relaxation strategies of fallback.ts, in source order, each
producing the filters to retry with and the strategy name reported on
success.  Each strategy starts from the *original* filters. -/
def relaxationStrategies (filters : RetrievalFilters) :
    List (Option RetrievalFilters × Text) :=
  [(some { filters with dateAfter := none, dateBefore := none },
    "removed date filters".toList),
   (some { filters with sectionName := none }, "removed section filters".toList),
   (some { filters with source := none }, "removed source filters".toList),
   (none, "removed all filters".toList)]

/-- The words excluded by `expandQuery`'s important-word filter. -/
def questionWords : List Text :=
  ["what", "when", "where", "how", "why", "the", "and", "or", "but", "for",
   "with"].map String.toList

/-- fallback.ts `expandQuery`: up to three important words (lowercased,
longer than three characters, not question words), then up to two adjacent
pairs. -/
def expandQuery (query : Text) : List Text :=
  let words := (splitWs (replaceNonWordWithSpace (jsToLowerText query))).filter
    (fun w => 3 < w.length)
  let importantWords := words.filter (fun w => !(w ∈ questionWords))
  let singles := importantWords.take 3
  let pairs := (List.range (min 2 (importantWords.length - 1))).map (fun i =>
    importantWords.getD i [] ++ [' '] ++ importantWords.getD (i + 1) [])
  singles ++ pairs

/-- The `for (const [index, strategy] of relaxationStrategies.entries())`
loop: first strategy whose retrieval succeeds wins; a failure moves on. -/
def tryStrategies (R : Option RetrievalFilters → Except RetrievalError (List RetrievedChunk))
    (e0 : RetrievalError) :
    List (Option RetrievalFilters × Text) → Option FallbackResult
  | [] => none
  | (fs, nm) :: rest =>
    match R fs with
    | .ok chunks =>
      some { chunks := chunks, fallbackUsed := true, fallbackStrategy := some nm,
             originalError := some e0 }
    | .error _ => tryStrategies R e0 rest

/-- The query-expansion loop of fallback.ts: retry the original filters with
each expanded query, stopping at the first success. -/
def tryExpansions (R : Text → Option RetrievalFilters → Except RetrievalError (List RetrievedChunk))
    (filters : Option RetrievalFilters) (e0 : RetrievalError) :
    List Text → Option FallbackResult
  | [] => none
  | q :: rest =>
    match R q filters with
    | .ok chunks =>
      some { chunks := chunks, fallbackUsed := true,
             fallbackStrategy :=
               some ("expanded query to \"".toList ++ q ++ "\"".toList),
             originalError := some e0 }
    | .error _ => tryExpansions R filters e0 rest

/-- fallback.ts `retrieveWithFallback(query, filters, options)`,
parameterized by the `retrieve` function `R` it calls (the source imports it;
`R` only ever throws `RetrievalError`s, which is what `retrieve` produces).
On success the chunks are returned unannotated; on an `EmptyResults` failure
filter relaxation (when enabled and filters are present) and then query
expansion (when enabled) are tried in order, and if neither yields a result
the original error is rethrown unchanged. -/
def retrieveWithFallback
    (R : Text → Option RetrievalFilters → Except RetrievalError (List RetrievedChunk))
    (query : Text) (filters : Option RetrievalFilters) (options : FallbackOptions) :
    Except RetrievalError FallbackResult :=
  match R query filters with
  | .ok chunks =>
    .ok { chunks := chunks, fallbackUsed := false, fallbackStrategy := none,
          originalError := none }
  | .error e =>
    let relaxed : Option FallbackResult :=
      match filters with
      | some f =>
        if e.code = RetrievalErrorCode.EmptyResults ∧ options.enableFilterRelaxation then
          tryStrategies (R query) e (relaxationStrategies f)
        else none
      | none => none
    match relaxed with
    | some res => .ok res
    | none =>
      let expanded : Option FallbackResult :=
        if e.code = RetrievalErrorCode.EmptyResults ∧ options.enableQueryExpansion then
          tryExpansions R filters e (expandQuery query)
        else none
      match expanded with
      | some res => .ok res
      | none => .error e

/-- Specification-side scan: the index and result of the first non-failing
retrieval among a list of filter alternatives. -/
def firstOk (R : Option RetrievalFilters → Except RetrievalError (List RetrievedChunk)) :
    List (Option RetrievalFilters) → Option (Nat × List RetrievedChunk)
  | [] => none
  | fs :: rest =>
    match R fs with
    | .ok cs => some (0, cs)
    | .error _ => (firstOk R rest).map (fun p => (p.1 + 1, p.2))

/-- The relaxed filter sets, in the order the controller tries them. -/
def relaxedFilterList (f : RetrievalFilters) : List (Option RetrievalFilters) :=
  (relaxationStrategies f).map (fun s => s.1)

/-- The strategy names, in order. -/
def strategyNames (f : RetrievalFilters) : List Text :=
  (relaxationStrategies f).map (fun s => s.2)

/-! ## Context assembler (`src/mastra/tools/retrieval/tool.ts`,
`assemble.ts` part) -/

/-- assemble.ts `AssemblyOptions` (defaults: 4000, 150, true, 20, 0). -/
structure AssemblyOptions : Type where
  tokenBudget : ℤ
  reservedTokens : ℤ
  includeCitations : Bool
  maxChunks : Nat
  minScore : ℚ
deriving DecidableEq

/-- types.ts `AssembledContext`. -/
structure AssembledContext : Type where
  context : Text
  chunks : List RetrievedChunk
  totalTokens : ℤ
  truncated : Bool
deriving DecidableEq

/-- assemble.ts `estimateCitationTokens`: `Math.ceil(id.length / 4) + 2`. -/
def estimateCitationTokens (chunkId : Text) : ℤ :=
  ceilDiv (chunkId.length : ℤ) 4 + 2

/-- assemble.ts `truncateChunk`: cut the text to roughly 4 characters per
token and mark the token count. -/
def truncateChunk (chunk : RetrievedChunk) (maxTokens : ℤ) : RetrievedChunk :=
  if chunk.tokens ≤ maxTokens then chunk
  else
    { chunk with
      text := chunk.text.take (maxTokens * 4).toNat ++ "...".toList
      tokens := maxTokens }

/-- The greedy packing loop of `assembleContext`: accept chunks while they
fit; at the first chunk that does not fit, truncate it into the remaining
space only if nothing was selected yet and more than 50 tokens remain, then
stop. -/
def packLoop (availableTokens : ℤ) (includeCitations : Bool) :
    List RetrievedChunk → List RetrievedChunk → ℤ → (List RetrievedChunk × ℤ × Bool)
  | [], selected, total => (selected.reverse, total, false)
  | chunk :: rest, selected, total =>
    let citationTokens := if includeCitations then estimateCitationTokens chunk.id else 0
    let requiredTokens := chunk.tokens + citationTokens
    if total + requiredTokens ≤ availableTokens then
      packLoop availableTokens includeCitations rest (chunk :: selected)
        (total + requiredTokens)
    else
      let remainingTokens := availableTokens - total - citationTokens
      if 50 < remainingTokens ∧ selected.length = 0 then
        let tchunk := truncateChunk chunk remainingTokens
        ((tchunk :: selected).reverse, total + tchunk.tokens + citationTokens, true)
      else (selected.reverse, total, false)

/-- One part of the context string: citation marker, metadata prefix, text. -/
def contextPart (includeCitations : Bool) (chunk : RetrievedChunk) : Text :=
  let chunkText := jsTrim chunk.text
  let chunkText :=
    if includeCitations then '§' :: chunk.id ++ ' ' :: chunkText else chunkText
  let metaParts :=
    (match chunk.sectionName with
     | some s => ["Section: ".toList ++ s]
     | none => []) ++
    (match chunk.date with
     | some d => ["Date: ".toList ++ d]
     | none => []) ++
    (if chunk.source.length ≠ 0 then ["Source: ".toList ++ chunk.source] else [])
  if metaParts.length ≠ 0 then
    '[' :: joinSep ", ".toList metaParts ++ ']' :: '\n' :: chunkText
  else chunkText

/-- assemble.ts `assembleContext(chunks, options)`. -/
def assembleContext (chunks : List RetrievedChunk) (options : AssemblyOptions) :
    AssembledContext :=
  let availableTokens := max 100 (options.tokenBudget - options.reservedTokens)
  if chunks.length = 0 then
    { context := [], chunks := [], totalTokens := 0, truncated := false }
  else
    let validChunks := ((jsSortBy (fun a b => b.score ≤ a.score)
      (chunks.filter (fun c => options.minScore ≤ c.score)))).take options.maxChunks
    if validChunks.length = 0 then
      { context := [], chunks := [], totalTokens := 0, truncated := false }
    else
      let packed := packLoop availableTokens options.includeCitations validChunks [] 0
      let selectedChunks := packed.1
      let totalTokens := packed.2.1
      let truncated := packed.2.2
      if selectedChunks.length = 0 then
        { context := [], chunks := [], totalTokens := 0, truncated := false }
      else
        { context := joinSep "\n\n---\n\n".toList
            (selectedChunks.map (contextPart options.includeCitations))
          chunks := selectedChunks
          totalTokens := totalTokens
          truncated := truncated }

/-! ## Ollama embedding adapter (`src/mastra/tools/embeddings/ollama.ts`) -/

/-- ollama.ts `OllamaConfig`. -/
structure OllamaConfig : Type where
  baseUrl : Text
  model : Text
  expectedDim : ℤ
deriving DecidableEq

/-- What one `fetch` of `embedSingle` can come back with: an HTTP reply
whose body's `embedding` field is a numeric array (`some v`) or
missing/not an array (`none`), or a connection failure (the `TypeError`
whose message mentions `fetch`). -/
inductive FetchOutcome : Type where
  | reply (status : ℤ) (embedding : Option (List ℚ)) : FetchOutcome
  | connError : FetchOutcome
deriving DecidableEq

/-- The errors `embedSingle` can end in. -/
inductive EmbedError : Type where
  | apiError (status : ℤ) : EmbedError
  | invalidEmbedding : EmbedError
  | dimensionMismatch (expected got : ℤ) : EmbedError
  | connFailure : EmbedError
  | unavailable (baseUrl model : Text) : EmbedError
  | exhausted : EmbedError
deriving DecidableEq

/-- The observable outcome of `embedSingle`: its result, how many fetch
attempts were made, and the backoff delays (ms) awaited in between. -/
structure EmbedRun : Type where
  result : Except EmbedError (List ℚ)
  attemptsUsed : Nat
  delays : List ℤ

/-- ollama.ts `embedSingle`'s retry loop (`for attempt in 1..maxRetries`),
driven by the oracle `fetchAt` giving each attempt's fetch outcome.  `fuel`
is the number of attempts still allowed after the current one
(`attempt < maxRetries` iff `0 < fuel`).

* non-2xx status 429 or ≥ 500: wait `min(1000·2^(attempt-1), 10000)` and
  retry (without recording a `lastError`);
* other non-2xx: an `Ollama API error` is thrown and caught; retried with
  the 5000-capped backoff while attempts remain, else it is rethrown;
* missing/invalid `embedding` body: likewise caught and retried;
* a produced vector of the wrong length throws a `Dimension mismatch`,
  which the catch **rethrows immediately** — no retry;
* connection errors: wait with the 5000-capped backoff and retry; on the
  final attempt throw the `Ollama unavailable` error naming the endpoint;
* a loop that exhausts all attempts throws `lastError`, or the generic
  `Failed to generate embedding after retries` when none was recorded. -/
def embedLoop (config : OllamaConfig) (fetchAt : Nat → FetchOutcome) :
    Nat → Nat → Option EmbedError → List ℤ → Nat → EmbedRun
  | fuel, attempt, lastError, delays, used =>
    match fetchAt attempt with
    | FetchOutcome.connError =>
      match fuel with
      | 0 =>
        { result := .error (EmbedError.unavailable config.baseUrl config.model),
          attemptsUsed := used + 1, delays := delays }
      | fuel' + 1 =>
        embedLoop config fetchAt fuel' (attempt + 1) (some EmbedError.connFailure)
          (delays ++ [min (1000 * 2 ^ (attempt - 1)) 5000]) (used + 1)
    | FetchOutcome.reply status embedding =>
      if 200 ≤ status ∧ status ≤ 299 then
        match embedding with
        | none =>
          match fuel with
          | 0 =>
            { result := .error EmbedError.invalidEmbedding, attemptsUsed := used + 1,
              delays := delays }
          | fuel' + 1 =>
            embedLoop config fetchAt fuel' (attempt + 1) (some EmbedError.invalidEmbedding)
              (delays ++ [min (1000 * 2 ^ (attempt - 1)) 5000]) (used + 1)
        | some v =>
          if (v.length : ℤ) ≠ config.expectedDim then
            { result := .error (EmbedError.dimensionMismatch config.expectedDim v.length),
              attemptsUsed := used + 1, delays := delays }
          else
            { result := .ok v, attemptsUsed := used + 1, delays := delays }
      else
        if status = 429 ∨ 500 ≤ status then
          match fuel with
          | 0 =>
            { result := .error (lastError.getD EmbedError.exhausted),
              attemptsUsed := used + 1,
              delays := delays ++ [min (1000 * 2 ^ (attempt - 1)) 10000] }
          | fuel' + 1 =>
            embedLoop config fetchAt fuel' (attempt + 1) lastError
              (delays ++ [min (1000 * 2 ^ (attempt - 1)) 10000]) (used + 1)
        else
          match fuel with
          | 0 =>
            { result := .error (EmbedError.apiError status), attemptsUsed := used + 1,
              delays := delays }
          | fuel' + 1 =>
            embedLoop config fetchAt fuel' (attempt + 1) (some (EmbedError.apiError status))
              (delays ++ [min (1000 * 2 ^ (attempt - 1)) 5000]) (used + 1)

/-- ollama.ts `embedSingle(text, config)` with `maxRetries = 5`, as a
function of the fetch outcomes. -/
def embedSingle (config : OllamaConfig) (fetchAt : Nat → FetchOutcome) : EmbedRun :=
  embedLoop config fetchAt 4 1 none [] 0

/-- Equality of `Except` values is decidable when both components' are. -/
instance {ε α : Type} [DecidableEq ε] [DecidableEq α] : DecidableEq (Except ε α) :=
  fun a b =>
    match a, b with
    | Except.ok x, Except.ok y =>
      if h : x = y then isTrue (congrArg Except.ok h) else isFalse (by simp [h])
    | Except.error x, Except.error y =>
      if h : x = y then isTrue (congrArg Except.error h) else isFalse (by simp [h])
    | Except.ok _, Except.error _ => isFalse (by simp)
    | Except.error _, Except.ok _ => isFalse (by simp)

/-- A row with arbitrary representative field values, used in concrete
retrieval scenarios. -/
def sampleRecord : EmbeddingRecord :=
  { id := "doc1_chunk_0000".toList
    docId := "doc1".toList
    vector := [1]
    text := "hello world sample text".toList
    sectionName := none
    date := none
    source := "sample.md".toList
    keywords := none
    tokens := 5
    seq := 0
    provider := "ollama".toList
    model := "nomic-embed-text".toList
    embeddingDim := 1
    create_time := 0 }

/-- The `sampleRecord` row with updated payload fields but the same id. -/
def sampleUpdatedRecord : EmbeddingRecord :=
  { sampleRecord with
    text := "hello world updated text".toList
    tokens := 9
    create_time := 1 }

/-- A representative retrieved chunk for concrete fallback scenarios. -/
def sampleChunk : RetrievedChunk :=
  { id := "doc1_chunk_0000".toList
    docId := "doc1".toList
    text := "hello world sample text".toList
    sectionName := none
    date := none
    source := "sample.md".toList
    keywords := none
    tokens := 5
    seq := 0
    provider := "ollama".toList
    model := "nomic-embed-text".toList
    embeddingDim := 1
    create_time := 0
    score := 1 }

/-- The `EmptyResults` error raised by the failing retrieval below. -/
def emptyErr : RetrievalError :=
  { code := RetrievalErrorCode.EmptyResults
    message := "No results found".toList
    suggestions := emptyResultsSuggestions true }

/-- Filters that set a section and a date window. -/
def sampleFilters : RetrievalFilters :=
  { sectionName := some ["Intro".toList]
    dateAfter := some "2024-01-01".toList
    dateBefore := none
    docId := none
    source := none
    keywords := none }

/-- A retrieval oracle that fails with `EmptyResults` under any filters and
succeeds only once all filters are removed. -/
def sampleRetrieve (q : Text) (fs : Option RetrievalFilters) :
    Except RetrievalError (List RetrievedChunk) :=
  match q, fs with
  | _, none => Except.ok [sampleChunk]
  | _, some _ => Except.error emptyErr

/-- Relaxation options: filter relaxation on, query expansion off. -/
def sampleFallbackOptions : FallbackOptions :=
  { enableFilterRelaxation := true
    enableQueryExpansion := false
    maxRetries := 2 }

/-- The assembly options of the budget scenario: token budget 500, reserved
150, citations on, default maxChunks 20 and minScore 0. -/
def budgetCaseOpts : AssemblyOptions :=
  { tokenBudget := 500
    reservedTokens := 150
    includeCitations := true
    maxChunks := 20
    minScore := 0 }

/-- A 200-token chunk used in the budget scenario, tagged by its rank. -/
def budgetChunk (n : ℤ) : RetrievedChunk :=
  { sampleChunk with seq := n, tokens := 200 }

/-- Five 200-token chunks. -/
def budgetChunks : List RetrievedChunk :=
  [budgetChunk 0, budgetChunk 1, budgetChunk 2, budgetChunk 3, budgetChunk 4]

/-! ## Claim C8: dimension mismatches fail fast, 429/5xx and connection
errors are retried with exponential backoff -/

instance : DecidableEq EmbedRun := fun a b =>
  decidable_of_iff
    (a.result = b.result ∧ a.attemptsUsed = b.attemptsUsed ∧ a.delays = b.delays)
    (by cases a; cases b; simp)

/-- A fetch oracle that always answers 200 with a 2-component embedding. -/
def mismatchFetch : Nat → FetchOutcome :=
  fun _ => FetchOutcome.reply 200 (some [1, 2])

/-- A fetch oracle that always answers 429. -/
def rateLimitedFetch : Nat → FetchOutcome :=
  fun _ => FetchOutcome.reply 429 none

/-- A fetch oracle whose every call is a connection error. -/
def downFetch : Nat → FetchOutcome :=
  fun _ => FetchOutcome.connError

/-- The adapter configuration the witnesses run against. -/
def sampleOllamaConfig : OllamaConfig :=
  { baseUrl := "http://localhost:11434".toList
    model := "nomic-embed-text".toList
    expectedDim := 3 }

theorem ceilDiv_eq (a : ℤ) (b : ℕ) : ceilDiv a (b : ℤ) = Int.ceil ((a : ℚ) / (b : ℚ)) := by
  rw [ceilDiv]
  have h2 : ((-a : ℤ) : ℚ) / (b : ℚ) = -((a : ℚ) / (b : ℚ)) := by
    push_cast
    ring
  have h3 : (-a) / (b : ℤ) = Int.floor (((-a : ℤ) : ℚ) / (b : ℚ)) :=
    (Rat.floor_intCast_div_natCast (-a) b).symm
  rw [h3, h2, Int.floor_neg, neg_neg]

theorem floorScale_eq (n : ℤ) (r : ℚ) : floorScale n r = Int.floor ((n : ℚ) * r) := by
  rw [floorScale]
  have h1 : (n : ℚ) * r = ((n * r.num : ℤ) : ℚ) / ((r.den : ℕ) : ℚ) := by
    conv_lhs => rw [← Rat.num_div_den r]
    push_cast
    ring
  rw [h1, Rat.floor_intCast_div_natCast]

theorem estimateTokens_eq (text : Text) :
    estimateTokens text = Int.ceil (((splitWs text).length : ℚ) * (13 / 10 : ℚ)) := by
  have h := ceilDiv_eq (13 * (splitWs text).length) 10
  simp only [Nat.cast_ofNat] at h
  rw [estimateTokens, h]
  congr 1
  push_cast
  ring

theorem wordsPerChunk_eq (maxTokens : ℤ) :
    wordsPerChunk maxTokens = Int.floor ((maxTokens : ℚ) / (13 / 10 : ℚ)) := by
  have h1 : (maxTokens : ℚ) / (13 / 10 : ℚ) = ((10 * maxTokens : ℤ) : ℚ) / ((13 : ℕ) : ℚ) := by
    push_cast
    ring
  rw [wordsPerChunk, h1, Rat.floor_intCast_div_natCast]
  norm_cast

theorem takeWhile_length_lt {p : Char → Bool} {l : Text} {a : Char}
    (ha : a ∈ l) (hpa : p a = false) : (l.takeWhile p).length < l.length := by
  induction l with
  | nil => cases ha
  | cons c cs ih =>
    by_cases hc : p c
    · rw [List.takeWhile_cons_of_pos hc]
      rcases List.mem_cons.mp ha with rfl | hmem
      · rw [hc] at hpa; cases hpa
      · simpa using ih hmem
    · rw [List.takeWhile_cons_of_neg hc]
      simp

/-- A separator match consumes the `\n` and at least one character of the
run, so the scan input shrinks by at least two at a match (and by one
otherwise). -/
theorem splitParas_step_consumes {rest : Text} (h : '\n' ∈ rest.takeWhile isWs) :
    (afterLastNl (rest.takeWhile isWs) ++ rest.dropWhile isWs).length < rest.length := by
  have h1 : (afterLastNl (rest.takeWhile isWs)).length < (rest.takeWhile isWs).length := by
    have hmem : '\n' ∈ (rest.takeWhile isWs).reverse := List.mem_reverse.mpr h
    have := @takeWhile_length_lt (fun c => !(c = '\n')) _ _ hmem (by simp)
    simpa [afterLastNl] using this
  have h2 : (rest.takeWhile isWs).length + (rest.dropWhile isWs).length = rest.length := by
    conv_rhs => rw [← List.takeWhile_append_dropWhile isWs rest]
    rw [List.length_append]
  simp only [List.length_append]
  omega

theorem mem_stableInsert {α : Type} (le : α → α → Bool) (x a : α) :
    ∀ (l : List α), a ∈ stableInsert le x l ↔ a = x ∨ a ∈ l := by
  intro l
  induction l with
  | nil => simp [stableInsert]
  | cons b bs ih =>
    rw [stableInsert]
    by_cases hb : le b x
    · rw [if_pos hb]
      simp only [List.mem_cons, ih]
      tauto
    · rw [if_neg hb]
      simp only [List.mem_cons]

theorem length_stableInsert {α : Type} (le : α → α → Bool) (x : α) :
    ∀ (l : List α), (stableInsert le x l).length = l.length + 1 := by
  intro l
  induction l with
  | nil => simp [stableInsert]
  | cons b bs ih =>
    rw [stableInsert]
    by_cases hb : le b x
    · rw [if_pos hb]
      simp [ih]
    · rw [if_neg hb]
      simp

theorem foldl_stableInsert_mem {α : Type} (le : α → α → Bool) (a : α) :
    ∀ (l acc : List α),
      (a ∈ l.foldl (fun acc x => stableInsert le x acc) acc ↔ a ∈ acc ∨ a ∈ l) := by
  intro l
  induction l with
  | nil => simp
  | cons b bs ih =>
    intro acc
    rw [List.foldl_cons, ih, mem_stableInsert]
    simp only [List.mem_cons]
    tauto

theorem mem_jsSortBy {α : Type} (le : α → α → Bool) (a : α) (l : List α) :
    a ∈ jsSortBy le l ↔ a ∈ l := by
  rw [jsSortBy, foldl_stableInsert_mem]
  simp

theorem foldl_stableInsert_length {α : Type} (le : α → α → Bool) :
    ∀ (l acc : List α),
      (l.foldl (fun acc x => stableInsert le x acc) acc).length = acc.length + l.length := by
  intro l
  induction l with
  | nil => simp
  | cons b bs ih =>
    intro acc
    rw [List.foldl_cons, ih, length_stableInsert]
    simp only [List.length_cons]
    omega

theorem length_jsSortBy {α : Type} (le : α → α → Bool) (l : List α) :
    (jsSortBy le l).length = l.length := by
  rw [jsSortBy, foldl_stableInsert_length]
  simp

/-! ## Properties of the split primitives -/

@[simp]
theorem splitRuns_nil (p : Char → Bool) : splitRuns p [] = ([], []) := by
  simp [splitRuns]

theorem splitRuns_cons_pos {p : Char → Bool} {c : Char} (cs : Text) (hp : p c = true) :
    splitRuns p (c :: cs) =
      ([], (splitRuns p (cs.dropWhile p)).1 :: (splitRuns p (cs.dropWhile p)).2) := by
  induction cs generalizing c with
  | nil =>
    rw [splitRuns]
    simp [hp]
  | cons d ds ih =>
    rw [splitRuns]
    simp only [hp, if_true, List.head?_cons]
    by_cases hd : p d
    · rw [if_pos hd, List.dropWhile_cons, if_pos hd, ih hd]
    · rw [if_neg hd, List.dropWhile_cons, if_neg hd]

theorem splitRuns_cons_neg {p : Char → Bool} {c : Char} (cs : Text) (hp : p c = false) :
    splitRuns p (c :: cs) = (c :: (splitRuns p cs).1, (splitRuns p cs).2) := by
  rw [splitRuns]
  simp [hp]

theorem length_splitOnRuns (p : Char → Bool) (s : Text) :
    (splitOnRuns p s).length = (splitRuns p s).2.length + 1 := by
  simp [splitOnRuns]

/-- Every segment produced by `splitOnRuns p` is free of `p`-characters. -/
theorem splitOnRuns_chars (p : Char → Bool) :
    ∀ (n : Nat) (s : Text), s.length ≤ n → ∀ t ∈ splitOnRuns p s, ∀ c ∈ t, p c = false := by
  intro n
  induction n with
  | zero =>
    intro s hs t ht c hc
    rw [List.length_eq_zero.mp (Nat.le_zero.mp hs)] at ht
    simp [splitOnRuns] at ht
    subst ht
    cases hc
  | succ m ih =>
    intro s hs t ht c hc
    match s with
    | [] =>
      simp [splitOnRuns] at ht
      subst ht
      cases hc
    | d :: cs =>
      by_cases hd : p d
      · rw [splitOnRuns, splitRuns_cons_pos cs hd] at ht
        rcases List.mem_cons.mp ht with rfl | ht2
        · cases hc
        · refine ih (cs.dropWhile p) ?_ t ?_ c hc
          · exact le_trans (List.Sublist.length_le (List.dropWhile_sublist p)) (Nat.succ_le_succ_iff.mp hs)
          · exact ht2
      · rw [splitOnRuns, splitRuns_cons_neg cs (Bool.eq_false_iff.mpr hd)] at ht
        have hcs : cs.length ≤ m := Nat.succ_le_succ_iff.mp hs
        rcases List.mem_cons.mp ht with rfl | ht2
        · rcases List.mem_cons.mp hc with rfl | hc2
          · exact Bool.eq_false_iff.mpr hd
          · exact ih cs hcs (splitRuns p cs).1 (List.mem_cons_self _ _) c hc2
        · exact ih cs hcs t (List.mem_cons.mpr (Or.inr ht2)) c hc

/-- A text with no `p`-characters is a single segment. -/
theorem splitRuns_of_forall {p : Char → Bool} (t : Text) (h : ∀ c ∈ t, p c = false) :
    splitRuns p t = (t, []) := by
  induction t with
  | nil => simp
  | cons c cs ih =>
    rw [splitRuns_cons_neg cs (h c (List.mem_cons_self _ _))]
    rw [ih (fun d hd => h d (List.mem_cons.mpr (Or.inr hd)))]

/-- Prepending a non-empty `p`-free text only extends the first segment. -/
theorem splitRuns_append {p : Char → Bool} :
    ∀ (t s : Text), t ≠ [] → (∀ c ∈ t, p c = false) →
      splitRuns p (t ++ s) = (t ++ (splitRuns p s).1, (splitRuns p s).2) := by
  intro t
  induction t with
  | nil => intro s h; exact absurd rfl h
  | cons c cs ih =>
    intro s _ hfree
    have hc : p c = false := hfree c (List.mem_cons_self _ _)
    match cs with
    | [] =>
      simpa using splitRuns_cons_neg s hc
    | d :: ds =>
      rw [List.cons_append, splitRuns_cons_neg _ hc,
        ih s (by simp) (fun e he => hfree e (List.mem_cons.mpr (Or.inr he)))]
      simp

/-- Dropping a leading run removes at most the leading empty segment. -/
theorem length_splitOnRuns_dropWhile (p : Char → Bool) (s : Text) :
    (splitOnRuns p (s.dropWhile p)).length ≤ (splitOnRuns p s).length := by
  match s with
  | [] => simp
  | c :: cs =>
    by_cases hc : p c
    · rw [List.dropWhile_cons]
      simp only [hc, if_true]
      rw [length_splitOnRuns, splitOnRuns, splitRuns_cons_pos cs hc]
      have : splitOnRuns p (cs.dropWhile p) =
          (splitRuns p (cs.dropWhile p)).1 :: (splitRuns p (cs.dropWhile p)).2 := rfl
      simp [length_splitOnRuns]
    · rw [List.dropWhile_cons]
      simp [hc]

/-- Appending on the right can only increase the number of segments. -/
theorem length_splitOnRuns_le_append (p : Char → Bool) :
    ∀ (n : Nat) (s t : Text), s.length ≤ n →
      (splitOnRuns p s).length ≤ (splitOnRuns p (s ++ t)).length := by
  intro n
  induction n with
  | zero =>
    intro s t hs
    rw [List.length_eq_zero.mp (Nat.le_zero.mp hs)]
    simp [splitOnRuns, length_splitOnRuns]
  | succ m ih =>
    intro s t hs
    match s with
    | [] => simp [splitOnRuns, length_splitOnRuns]
    | c :: cs =>
      have hcs : cs.length ≤ m := Nat.succ_le_succ_iff.mp hs
      by_cases hc : p c
      · rw [List.cons_append, splitOnRuns, splitOnRuns, splitRuns_cons_pos cs hc,
          splitRuns_cons_pos (cs ++ t) hc]
        simp only [List.length_cons, Nat.succ_le_succ_iff]
        rw [List.dropWhile_append]
        by_cases hemp : (cs.dropWhile p).isEmpty
        · rw [if_pos hemp]
          rw [List.isEmpty_iff.mp hemp]
          simp [splitOnRuns, length_splitOnRuns]
        · rw [if_neg hemp]
          have hlen : (cs.dropWhile p).length ≤ m :=
            le_trans (List.Sublist.length_le (List.dropWhile_sublist p)) hcs
          have := ih (cs.dropWhile p) t hlen
          simpa [length_splitOnRuns] using this
      · have hc' : p c = false := Bool.eq_false_iff.mpr hc
        rw [List.cons_append, length_splitOnRuns, length_splitOnRuns,
          splitRuns_cons_neg cs hc', splitRuns_cons_neg (cs ++ t) hc']
        have := ih cs t hcs
        simpa [length_splitOnRuns] using this

/-- Trimming never increases the number of `\s+`-separated words. -/
theorem length_splitWs_trim_le (s : Text) :
    (splitWs (jsTrim s)).length ≤ (splitWs s).length := by
  unfold jsTrim splitWs
  set a := s.dropWhile isWs with ha
  have hsplit : (a.reverse.dropWhile isWs).reverse ++ (a.reverse.takeWhile isWs).reverse = a := by
    rw [← List.reverse_append, List.takeWhile_append_dropWhile, List.reverse_reverse]
  calc (splitOnRuns isWs (a.reverse.dropWhile isWs).reverse).length
      ≤ (splitOnRuns isWs ((a.reverse.dropWhile isWs).reverse ++
          (a.reverse.takeWhile isWs).reverse)).length :=
        length_splitOnRuns_le_append isWs _ _ _ (le_refl _)
    _ = (splitOnRuns isWs a).length := by rw [hsplit]
    _ ≤ (splitOnRuns isWs s).length := length_splitOnRuns_dropWhile isWs s

/-- Re-splitting the single-space join of `p`-free segments yields at most as
many segments as were joined. -/
theorem length_splitWs_joinSep_le :
    ∀ (w : List Text), w ≠ [] → (∀ t ∈ w, ∀ c ∈ t, isWs c = false) →
      (splitWs (joinSep [' '] w)).length ≤ w.length := by
  intro w
  induction w with
  | nil => intro h; exact absurd rfl h
  | cons t rest ih =>
    intro _ hfree
    match rest with
    | [] =>
      match t with
      | [] => simp [joinSep, splitWs, splitOnRuns]
      | c :: cs =>
        have : splitRuns isWs (c :: cs) = (c :: cs, []) :=
          splitRuns_of_forall (c :: cs) (hfree (c :: cs) (List.mem_cons_self _ _))
        simp [joinSep, splitWs, splitOnRuns, this]
    | u :: us =>
      have hJ : joinSep [' '] (t :: u :: us) = t ++ ' ' :: joinSep [' '] (u :: us) := by
        simp [joinSep]
      have hws : isWs ' ' = true := by decide
      have hrest : (splitWs (joinSep [' '] (u :: us))).length ≤ (u :: us).length :=
        ih (by simp) (fun x hx => hfree x (List.mem_cons.mpr (Or.inr hx)))
      have hspace : (splitOnRuns isWs (' ' :: joinSep [' '] (u :: us))).length ≤
          (u :: us).length + 1 := by
        rw [length_splitOnRuns, splitRuns_cons_pos _ hws]
        have h1 : (splitOnRuns isWs ((joinSep [' '] (u :: us)).dropWhile isWs)).length ≤
            (splitOnRuns isWs (joinSep [' '] (u :: us))).length :=
          length_splitOnRuns_dropWhile isWs _
        rw [length_splitOnRuns, length_splitOnRuns] at h1
        have h2 : (splitRuns isWs (joinSep [' '] (u :: us))).2.length + 1 ≤
            (u :: us).length := by
          rw [splitWs, length_splitOnRuns] at hrest
          exact hrest
        simp only [List.length_cons] at h1 h2 ⊢
        omega
      rw [hJ]
      match t, hfree with
      | [], _ =>
        simpa [splitWs, List.nil_append, List.length_cons] using hspace
      | c :: cs, hfree =>
        have happ : splitRuns isWs ((c :: cs) ++ ' ' :: joinSep [' '] (u :: us)) =
            ((c :: cs) ++ (splitRuns isWs (' ' :: joinSep [' '] (u :: us))).1,
             (splitRuns isWs (' ' :: joinSep [' '] (u :: us))).2) :=
          splitRuns_append (c :: cs) _ (by simp) (hfree (c :: cs) (List.mem_cons_self _ _))
        rw [splitWs, length_splitOnRuns, happ]
        rw [length_splitOnRuns] at hspace
        simp only [List.length_cons] at hspace ⊢
        omega

/-- Every window emitted by `slidingLoop` is a `drop`/`take` slice. -/
theorem mem_slidingLoop {α : Type} (xs : List α) (size step : Nat) :
    ∀ (fuel i : Nat), ∀ w ∈ slidingLoop xs size step i fuel,
      ∃ j, j < xs.length ∧ w = (xs.drop j).take size := by
  intro fuel
  induction fuel with
  | zero => intro i w hw; cases hw
  | succ m ih =>
    intro i w hw
    rw [slidingLoop] at hw
    by_cases hi : i < xs.length
    · rw [if_pos hi] at hw
      rcases List.mem_cons.mp hw with rfl | hw2
      · exact ⟨i, hi, rfl⟩
      · exact ih (i + step) w hw2
    · rw [if_neg hi] at hw
      cases hw

/-- With a positive step, `xs.length` iterations are enough: any larger fuel
computes the same windows (the loop terminates). -/
theorem slidingLoop_fuel_stable {α : Type} (xs : List α) (size step : Nat) (hstep : 1 ≤ step) :
    ∀ (f1 : Nat), ∀ (f2 i : Nat), xs.length - i ≤ f1 → xs.length - i ≤ f2 →
      slidingLoop xs size step i f1 = slidingLoop xs size step i f2 := by
  intro f1
  induction f1 with
  | zero =>
    intro f2 i h1 h2
    have hlen : xs.length ≤ i := by omega
    match f2 with
    | 0 => rfl
    | g + 1 =>
      rw [slidingLoop, slidingLoop, if_neg (by omega)]
  | succ m ih =>
    intro f2 i h1 h2
    match f2 with
    | 0 =>
      have hlen : xs.length ≤ i := by omega
      rw [slidingLoop, slidingLoop, if_neg (by omega)]
    | g + 1 =>
      rw [slidingLoop, slidingLoop]
      by_cases hi : i < xs.length
      · rw [if_pos hi, if_pos hi]
        rw [ih g (i + step) (by omega) (by omega)]
      · rw [if_neg hi, if_neg hi]

/-! ## Claim C3: the token-cap fallback bounds every chunk -/

theorem one_le_wordsPerChunk {M : ℤ} (hM : 2 ≤ M) : 1 ≤ wordsPerChunk M := by
  rw [wordsPerChunk_eq, Int.le_floor]
  have h2 : (2 : ℚ) ≤ (M : ℚ) := by exact_mod_cast hM
  rw [le_div_iff₀ (by norm_num)]
  linarith

theorem words_gt_wordsPerChunk {text : Text} {M : ℤ}
    (hbig : M < estimateTokens text) :
    wordsPerChunk M < ((splitWs text).length : ℤ) := by
  rw [estimateTokens_eq, Int.lt_ceil] at hbig
  have h1 : ((wordsPerChunk M : ℤ) : ℚ) ≤ (M : ℚ) / (13 / 10) := by
    rw [wordsPerChunk_eq]
    exact Int.floor_le _
  have h2 : (M : ℚ) / (13 / 10) < ((splitWs text).length : ℚ) := by
    rw [div_lt_iff₀ (by norm_num)]
    linarith
  exact_mod_cast lt_of_le_of_lt h1 h2

theorem ceil_words_le {n : Nat} {M : ℤ} (h : (n : ℤ) ≤ wordsPerChunk M) :
    Int.ceil ((n : ℚ) * (13 / 10 : ℚ)) ≤ M := by
  rw [Int.ceil_le]
  have h1 : ((n : ℤ) : ℚ) ≤ ((wordsPerChunk M : ℤ) : ℚ) := by exact_mod_cast h
  have h2 : ((wordsPerChunk M : ℤ) : ℚ) ≤ (M : ℚ) / (13 / 10) := by
    rw [wordsPerChunk_eq]
    exact Int.floor_le _
  have h3 : (n : ℚ) ≤ (M : ℚ) / (13 / 10) := by
    calc (n : ℚ) = ((n : ℤ) : ℚ) := by push_cast; ring
      _ ≤ (M : ℚ) / (13 / 10) := le_trans h1 h2
  calc (n : ℚ) * (13 / 10 : ℚ) ≤ ((M : ℚ) / (13 / 10)) * (13 / 10 : ℚ) := by
        apply mul_le_mul_of_nonneg_right h3 (by norm_num)
    _ = (M : ℚ) := by field_simp

/-- Every piece emitted by the zero-overlap token re-split of an oversized
chunk estimates within the budget. -/
theorem splitByTokens_chunk_bound (text : Text) (M : ℤ) (hM : 2 ≤ M)
    (hbig : M < estimateTokens text) :
    ∀ c ∈ splitByTokens text M 0, estimateTokens c ≤ M := by
  intro c hc
  simp only [splitByTokens] at hc
  rw [if_neg (by
    have := @words_gt_wordsPerChunk text _ hbig
    omega)] at hc
  rcases List.mem_map.mp hc with ⟨w, hw, rfl⟩
  rcases mem_slidingLoop (splitWs text) (wordsPerChunk M).toNat
      (tokenStep M 0).toNat ((splitWs text).length) 0 w hw with ⟨j, hj, rfl⟩
  have hfree : ∀ t ∈ (((splitWs text).drop j).take (wordsPerChunk M).toNat),
      ∀ ch ∈ t, isWs ch = false := by
    intro t ht ch hch
    have ht2 : t ∈ splitWs text :=
      ((List.take_sublist _ _).trans (List.drop_sublist _ _)).mem ht
    exact splitOnRuns_chars isWs text.length text (le_refl _) t ht2 ch hch
  have hne : (((splitWs text).drop j).take (wordsPerChunk M).toNat) ≠ [] := by
    rw [Ne, List.take_eq_nil_iff]
    push_neg
    constructor
    · have h1 : 1 ≤ wordsPerChunk M := one_le_wordsPerChunk hM
      omega
    · rw [Ne, List.drop_eq_nil_iff]
      omega
  have hlen : ((((splitWs text).drop j).take (wordsPerChunk M).toNat)).length ≤
      (wordsPerChunk M).toNat := by
    rw [List.length_take]
    exact min_le_left _ _
  have hcount := length_splitWs_joinSep_le _ hne hfree
  rw [estimateTokens_eq]
  have hn : ((splitWs (joinSep [' ']
      (((splitWs text).drop j).take (wordsPerChunk M).toNat))).length : ℤ) ≤ wordsPerChunk M := by
    have h1 : 0 ≤ wordsPerChunk M := le_trans (by norm_num) (one_le_wordsPerChunk hM)
    have := le_trans hcount hlen
    omega
  exact ceil_words_le (by exact_mod_cast hn)

/-- Helper: a member of `mapIdx f l` is `f i x` for some `x ∈ l`. -/
theorem mem_mapIdx_imp {α β : Type} :
    ∀ (l : List α) (f : Nat → α → β) (b : β), b ∈ l.mapIdx f → ∃ i x, x ∈ l ∧ b = f i x := by
  intro l
  induction l with
  | nil => intro f b hb; cases hb
  | cons a as ih =>
    intro f b hb
    rw [List.mapIdx_cons] at hb
    rcases List.mem_cons.mp hb with rfl | hb2
    · exact ⟨0, a, List.mem_cons_self _ _, rfl⟩
    · rcases ih (fun i => f (i + 1)) b hb2 with ⟨i, x, hx, rfl⟩
      exact ⟨i + 1, x, List.mem_cons.mpr (Or.inr hx), rfl⟩

/-- Claim C3: for every document and chunking options (with a token budget of
at least 2, below which the source's re-split loop would not terminate), every
chunk produced by `splitIntoChunks` satisfies
`estimateTokens chunk.text ≤ maxTokens`: the post-processing fallback re-split
with zero overlap caps every chunk at the budget. -/
theorem splitIntoChunks_token_cap (doc : ParsedDocument) (opts : ChunkingOptions)
    (hM : 2 ≤ opts.maxTokens) :
    ∀ ch ∈ splitIntoChunks doc opts, estimateTokens ch.text ≤ opts.maxTokens := by
  intro ch hch
  simp only [splitIntoChunks] at hch
  by_cases hempty : doc.text.isEmpty || (jsTrim doc.text).isEmpty
  · rw [if_pos hempty] at hch
    cases hch
  · rw [if_neg hempty] at hch
    rcases mem_mapIdx_imp _ _ _ hch with ⟨i, text, htext, rfl⟩
    simp only
    have htext2 := (List.mem_filter.mp htext).1
    rcases List.mem_flatMap.mp htext2 with ⟨chunk0, _, hmem⟩
    have hbound : estimateTokens text ≤ opts.maxTokens := by
      by_cases hb : opts.maxTokens < estimateTokens chunk0
      · rw [if_pos hb] at hmem
        exact splitByTokens_chunk_bound chunk0 opts.maxTokens hM hb text hmem
      · rw [if_neg hb] at hmem
        rcases List.mem_singleton.mp hmem with rfl
        omega
    calc estimateTokens (jsTrim text)
        = Int.ceil (((splitWs (jsTrim text)).length : ℚ) * (13 / 10 : ℚ)) := by
          rw [estimateTokens_eq]
      _ ≤ Int.ceil (((splitWs text).length : ℚ) * (13 / 10 : ℚ)) := by
          apply Int.ceil_le_ceil
          apply mul_le_mul_of_nonneg_right _ (by norm_num)
          exact_mod_cast length_splitWs_trim_le text
      _ = estimateTokens text := by rw [estimateTokens_eq]
      _ ≤ opts.maxTokens := hbound

/-! ## Claim C10: the sliding-window steps are positive -/

theorem floor_mul_le_sub_one {P : ℤ} (hP : 0 < P) {r : ℚ} (hr : r < 1) :
    Int.floor ((P : ℚ) * r) ≤ P - 1 := by
  have h1 : (P : ℚ) * r < (P : ℚ) := by
    apply mul_lt_of_lt_one_right _ hr
    exact_mod_cast hP
  have h2 : Int.floor ((P : ℚ) * r) < P := Int.floor_lt.mpr h1
  omega

theorem paragraphStep_pos (n : Nat) {r : ℚ} (hr : r < 1) : 1 ≤ paragraphStep n r := by
  have hP : 2 ≤ (paragraphWindowSize n : ℤ) := by
    have : 2 ≤ paragraphWindowSize n := le_max_left _ _
    exact_mod_cast this
  have hfloor : floorScale (paragraphWindowSize n) r ≤ (paragraphWindowSize n : ℤ) - 1 := by
    rw [floorScale_eq]
    exact @floor_mul_le_sub_one (paragraphWindowSize n : ℤ) (by omega) _ hr
  rw [paragraphStep, paragraphOverlap]
  omega

theorem sentenceStep_pos (n : Nat) {r : ℚ} (hr : r < 1) : 1 ≤ sentenceStep n r := by
  have hP : 3 ≤ (sentenceWindowSize n : ℤ) := by
    have : 3 ≤ sentenceWindowSize n := le_max_left _ _
    exact_mod_cast this
  have hfloor : floorScale (sentenceWindowSize n) r ≤ (sentenceWindowSize n : ℤ) - 1 := by
    rw [floorScale_eq]
    exact @floor_mul_le_sub_one (sentenceWindowSize n : ℤ) (by omega) _ hr
  rw [sentenceStep, sentenceOverlap]
  omega

theorem tokenStep_pos {M : ℤ} (hM : 2 ≤ M) {r : ℚ} (hr : r < 1) : 1 ≤ tokenStep M r := by
  have h1 : 1 ≤ wordsPerChunk M := one_le_wordsPerChunk hM
  have hfloor : overlapWords M r ≤ wordsPerChunk M - 1 := by
    rw [overlapWords, floorScale_eq]
    exact floor_mul_le_sub_one (by omega) hr
  rw [tokenStep]
  omega

/-- Claim C10: with `overlapRatio < 1` and `maxTokens ≥ 2`, every
sliding-window loop of the chunker advances its index by at least one per
iteration — the paragraph-fallback step, the sentence step, the token step,
and the zero-overlap fallback step are all ≥ 1 — so `xs.length` iterations
suffice and the loops terminate (any larger fuel computes the same list).
The precondition is sharp: at `overlapRatio = 1` (12-paragraph example) or
`maxTokens = 1` the step degenerates to 0 and the source loops never
advance. -/
theorem chunking_step_positive :
    (∀ (n : Nat) (r : ℚ), 0 ≤ r → r < 1 →
        1 ≤ paragraphStep n r ∧ 1 ≤ sentenceStep n r) ∧
    (∀ (M : ℤ) (r : ℚ), 0 ≤ r → r < 1 → 2 ≤ M →
        1 ≤ tokenStep M r ∧ 1 ≤ tokenStep M 0) ∧
    paragraphStep 12 1 = 0 ∧ tokenStep 1 0 = 0 ∧
    (∀ (α : Type) (xs : List α) (size step : Nat), 1 ≤ step → ∀ extra : Nat,
        slidingLoop xs size step 0 (xs.length + extra) = slidingWindows xs size step) := by
  refine ⟨?_, ?_, ?_, ?_, ?_⟩
  · intro n r _ hr
    exact ⟨paragraphStep_pos n hr, sentenceStep_pos n hr⟩
  · intro M r _ hr hM
    exact ⟨tokenStep_pos hM hr, tokenStep_pos hM (by norm_num)⟩
  · decide
  · decide
  · intro α xs size step hstep extra
    rw [slidingWindows]
    exact slidingLoop_fuel_stable xs size step hstep _ _ 0 (by omega) (by omega)

/-- Closed-form witness for `chunking_step_positive`: its hypotheses hold, and
its conclusions apply, at `n = 12`, `maxTokens = 512`, `overlapRatio = 0.1`. -/
theorem chunking_step_positive_witness :
    (0 ≤ (1 / 10 : ℚ) ∧ (1 / 10 : ℚ) < 1 ∧ 2 ≤ (512 : ℤ)) ∧
    1 ≤ paragraphStep 12 (1 / 10) ∧ 1 ≤ tokenStep 512 (1 / 10) := by
  refine ⟨⟨by norm_num, by norm_num, by norm_num⟩, ?_, ?_⟩
  · exact (chunking_step_positive.1 12 (1 / 10) (by norm_num) (by norm_num)).1
  · exact (chunking_step_positive.2.1 512 (1 / 10) (by norm_num) (by norm_num) (by norm_num)).1

/-- Witness for `splitIntoChunks_token_cap`: on a concrete document with the
default options the hypothesis `2 ≤ maxTokens` holds and every produced chunk
estimates within the budget. -/
theorem splitIntoChunks_token_cap_witness :
    2 ≤ (512 : ℤ) ∧
    ∀ ch ∈ splitIntoChunks
        { docId := "doc1".toList,
          text := "one two three four five six seven\n\neight nine ten eleven".toList,
          metadata := { source := "sample.md".toList, author := none, date := none } }
        { strategy := ChunkStrategy.paragraph, overlapR := 1 / 10, maxTokens := 512 },
      estimateTokens ch.text ≤ 512 := by
  refine ⟨by norm_num, ?_⟩
  exact splitIntoChunks_token_cap _ _ (by norm_num)

/-- Claim C4 (counterexample): on a 3-paragraph document the paragraph
strategy does **not** return a single chunk — the whole-document rule only
covers documents with at most 2 paragraphs, and 3 paragraphs take the
sliding-window path. -/
theorem three_paragraph_doc_not_single_chunk :
    (splitIntoChunks threeParaDoc threeParaOpts).length ≠ 1 := by
  decide

/-- Claim C4 (amended): a 3-paragraph document with
`strategy = paragraph, overlapRatio = 0.1, maxTokens = 512` yields exactly 3
chunks (windows of 2 paragraphs stepping by 1: paragraphs 0–1, 1–2, and 2);
the single-whole-document rule applies only to documents with ≤ 2
paragraphs. -/
theorem three_paragraph_doc_yields_three_chunks :
    (splitIntoChunks threeParaDoc threeParaOpts).length = 3 := by
  decide

/-- Claim C9: `extractMetadataHybrid` is a total function on strings — in
this embedding every extractor is a total Lean function, so no input can make
it throw — and each of its seven fields is derived independently by its own
best-effort extractor; on an input where no pattern matches (the empty
string) every optional field is left undefined and the list fields are empty,
and the fields really are populated from the text (witnessed by the labelled
date scenario). -/
theorem extractMetadataHybrid_total_independent :
    (∀ t : Text, extractMetadataHybrid t =
      { author := extractAuthor t, date := extractDate t,
        sectionName := extractSectionMeta t, keywords := extractKeywordsMeta t,
        title := extractTitle t, summary := extractSummary t,
        entities := extractEntities t }) ∧
    extractMetadataHybrid [] =
      { author := none, date := none, sectionName := none, keywords := [],
        title := none, summary := none, entities := [] } ∧
    (extractMetadataHybrid "**Date**: December 15, 2023".toList).date =
      some "December 15, 2023".toList := by
  refine ⟨fun t => rfl, by decide, by decide⟩

/-! ## Claim C2: the dimension-mismatch error is swallowed -/

/-- Claim C2 (code bug): opening the existing 384-dimensional table `chunks`
with an expected dimension of 768 does **not** raise a configuration error:
the inner validation throws a dimension mismatch (first conjunct), but
`getOrCreateTable`'s `catch (schemaError)` only logs a schema-compatibility
warning and the 384-dimensional table is returned anyway (second conjunct) —
contradicting both the spec and the remedial error message the code itself
constructs. -/
theorem getOrCreateTable_swallows_dimension_mismatch :
    (∃ msg, validateDim "chunks".toList 384 768 = Except.error msg) ∧
    (∃ t, getOrCreateTable [("chunks".toList, 384)] "chunks".toList (some 768) =
        Except.ok t ∧
      t.dim = 384 ∧ t.dim ≠ 768 ∧ t.schemaWarning.isSome = true) := by
  constructor
  · exact ⟨_, rfl⟩
  · exact ⟨_, rfl, rfl, by decide, rfl⟩

/-! ## Claim C1: empty-after-filtering returns `[]`, not `EmptyResults` -/

theorem retrieveFromResults_all_below (results : List (EmbeddingRecord × ℚ))
    (minScore : ℚ) (hf : Bool) (hne : results ≠ [])
    (hbelow : ∀ r ∈ results, max 0 (1 - r.2) < minScore) :
    retrieveFromResults results minScore hf = Except.ok [] := by
  rw [retrieveFromResults, if_neg (by simpa using hne)]
  have hfil : (results.map (fun r => toRetrievedChunk r.1 (max 0 (1 - r.2)))).filter
      (fun ch => minScore ≤ ch.score) = [] := by
    rw [List.filter_eq_nil_iff]
    intro ch hch
    rcases List.mem_map.mp hch with ⟨r, hr, rfl⟩
    simp only [toRetrievedChunk, decide_eq_true_eq]
    exact not_le.mpr (hbelow r hr)
  rw [hfil]
  rfl

/-- Claim C1 (counterexample): one raw result at cosine distance 1/2 (so its
converted score 1/2 is below `minScore = 9/10`): `retrieve` returns the empty
list `Except.ok []`, it does not raise `EmptyResults` — the emptiness check
runs on the raw results, before score filtering. -/
theorem retrieve_belowMinScore_returns_empty_list :
    retrieveFromResults [(sampleRecord, mkRat 1 2)] (mkRat 9 10) false =
      Except.ok [] ∧
    max 0 (1 - (mkRat 1 2 : ℚ)) < mkRat 9 10 := by
  have hlt : max 0 (1 - (mkRat 1 2 : ℚ)) < mkRat 9 10 := by
    rw [Rat.mkRat_eq_div, Rat.mkRat_eq_div]
    norm_num
  refine ⟨?_, hlt⟩
  apply retrieveFromResults_all_below _ _ _ (by simp)
  intro r hr
  rcases List.mem_singleton.mp hr with rfl
  simpa using hlt

/-- Claim C1 (amended): `EmptyResults` is raised exactly when the raw
similarity search returns zero rows (with suggestions); when raw results
exist but every converted score falls below `minScore`, `retrieve` returns a
silently empty list instead of raising. -/
theorem retrieve_emptyResults_iff_raw_empty :
    (∀ (minScore : ℚ) (hf : Bool), ∃ e,
      retrieveFromResults [] minScore hf = Except.error e ∧
      e.code = RetrievalErrorCode.EmptyResults) ∧
    (∀ (results : List (EmbeddingRecord × ℚ)) (minScore : ℚ) (hf : Bool),
      results ≠ [] → (∀ r ∈ results, max 0 (1 - r.2) < minScore) →
      retrieveFromResults results minScore hf = Except.ok []) := by
  constructor
  · intro minScore hf
    exact ⟨_, rfl, rfl⟩
  · exact retrieveFromResults_all_below

/-- Witness for `retrieve_emptyResults_iff_raw_empty`: a one-row result set
at distance 1 (score 0) under `minScore = 2` comes back as the empty list. -/
theorem retrieve_emptyResults_iff_raw_empty_witness :
    ([((sampleRecord : EmbeddingRecord), (1 : ℚ))] ≠ []) ∧
    retrieveFromResults [(sampleRecord, (1 : ℚ))] 2 false = Except.ok [] := by
  refine ⟨by simp, ?_⟩
  apply retrieve_emptyResults_iff_raw_empty.2 _ _ _ (by simp)
  intro r hr
  rcases List.mem_singleton.mp hr with rfl
  norm_num

/-! ## Claim C5: upsert is delete-then-insert, last write wins -/

theorem upsertEmbeddings_singleton (table : List EmbeddingRecord)
    (r : EmbeddingRecord) :
    upsertEmbeddings table [r] =
      Except.ok ((table.filter fun row => !(row.id = r.id)) ++ [r]) := by
  simp only [upsertEmbeddings, dedupFirst, dedupFirstGo, List.map_cons,
    List.map_nil, List.length_cons, List.length_nil, List.not_mem_nil,
    if_false, if_neg (by omega : ¬(0 + 1 = 0)),
    if_neg (by omega : ¬(1 < 1))]
  by_cases hex : ∃ row ∈ table, row.id = r.id
  · obtain ⟨row0, hrow0, hid0⟩ := hex
    have hmem : r.id ∈
        (table.filter (fun row => row.id ∈ [r.id])).map (fun row => row.id) :=
      List.mem_map.mpr ⟨row0, List.mem_filter.mpr ⟨hrow0, by simp [hid0]⟩, hid0⟩
    have hupd : List.filter
        (fun r1 => r1.id ∈
          (table.filter (fun row => row.id ∈ [r.id])).map (fun row => row.id))
        [r] = [r] := by
      rw [List.filter_cons_of_pos (by simpa using hmem), List.filter_nil]
    simp only [hupd, List.map_cons, List.map_nil, List.length_cons,
      List.length_nil]
    rw [if_pos (by omega)]
    refine congrArg (fun t => Except.ok (t ++ [r])) (List.filter_congr ?_)
    intro row _
    simp [List.mem_singleton]
  · have hfil : table.filter (fun row => row.id ∈ [r.id]) = [] := by
      rw [List.filter_eq_nil_iff]
      intro row hrow
      simp only [List.mem_singleton, decide_eq_true_eq]
      exact fun hc => hex ⟨row, hrow, hc⟩
    simp only [hfil, List.map_nil]
    have hupd : List.filter (fun r1 => r1.id ∈ ([] : List Text)) [r] = [] := by
      simp
    simp only [hupd, List.length_nil]
    rw [if_neg (by omega)]
    refine congrArg (fun t => Except.ok (t ++ [r])) ((List.filter_eq_self.mpr ?_).symm)
    intro row hrow
    simp only [Bool.not_eq_true', decide_eq_false_iff_not]
    exact fun hc => hex ⟨row, hrow, hc⟩

/-- Claim C5: upsert by id is delete-then-insert and last write wins.
For any two records sharing an id, upserting the first and then the second
leaves the table in a state where the only record carrying that id is the
second one, and that state is exactly what upserting the second record alone
would have produced (the first write is erased without trace). -/
theorem upsertEmbeddings_last_write_wins (table : List EmbeddingRecord)
    (r1 r2 : EmbeddingRecord) (hid : r1.id = r2.id) :
    ∃ t1 t2, upsertEmbeddings table [r1] = Except.ok t1 ∧
      upsertEmbeddings t1 [r2] = Except.ok t2 ∧
      t2.filter (fun row => row.id = r2.id) = [r2] ∧
      upsertEmbeddings table [r2] = Except.ok t2 := by
  refine ⟨_, _, upsertEmbeddings_singleton table r1,
    upsertEmbeddings_singleton _ r2, ?_, ?_⟩
  · rw [List.filter_append, List.filter_filter]
    have h1 : ∀ a : EmbeddingRecord,
        (decide (a.id = r2.id) && !decide (a.id = r2.id)) = false := by
      intro a
      cases h : decide (a.id = r2.id) <;> simp [h]
    simp only [h1, List.filter_false, List.nil_append]
    simp
  · rw [upsertEmbeddings_singleton table r2]
    congr 2
    rw [List.filter_append, List.filter_filter]
    have h2 : List.filter (fun row => !(row.id = r2.id)) [r1] = [] := by
      simp [hid]
    rw [h2, List.append_nil]
    refine List.filter_congr ?_
    intro row _
    rw [hid]
    cases h : decide (row.id = r2.id) <;> simp [h]

/-- Witness for `upsertEmbeddings_last_write_wins`: concrete ids agree, and
on the concrete one-row table the second upsert replaces the first record. -/
theorem upsertEmbeddings_last_write_wins_witness :
    (sampleRecord.id = sampleUpdatedRecord.id) ∧
    (∃ t1 t2, upsertEmbeddings [] [sampleRecord] = Except.ok t1 ∧
      upsertEmbeddings t1 [sampleUpdatedRecord] = Except.ok t2 ∧
      t2.filter (fun row => row.id = sampleUpdatedRecord.id) =
        [sampleUpdatedRecord] ∧
      upsertEmbeddings [] [sampleUpdatedRecord] = Except.ok t2) ∧
    upsertEmbeddings [sampleRecord] [sampleUpdatedRecord] =
      Except.ok [sampleUpdatedRecord] :=
  ⟨rfl, upsertEmbeddings_last_write_wins [] sampleRecord sampleUpdatedRecord rfl,
    by decide⟩

/-! ## Claim C6: relaxation order and error propagation -/

theorem tryStrategies_eq_firstOk
    (R : Option RetrievalFilters → Except RetrievalError (List RetrievedChunk))
    (e0 : RetrievalError) (pairs : List (Option RetrievalFilters × Text)) :
    tryStrategies R e0 pairs =
      match firstOk R (pairs.map (fun s => s.1)) with
      | some (i, cs) =>
        some { chunks := cs, fallbackUsed := true,
               fallbackStrategy := some ((pairs.map (fun s => s.2)).getD i []),
               originalError := some e0 }
      | none => none := by
  induction pairs with
  | nil => rfl
  | cons p rest ih =>
    obtain ⟨fs, nm⟩ := p
    rw [List.map_cons, List.map_cons, tryStrategies, firstOk]
    cases hR : R fs with
    | ok cs => rfl
    | error e =>
      rw [ih]
      cases hF : firstOk R (rest.map (fun s => s.1)) with
      | none => rfl
      | some pr => rfl

/-- Claim C6: when `retrieve` fails with `EmptyResults` and filter relaxation
is enabled (query expansion disabled, as in the explicit-filter flow the claim
describes), `retrieveWithFallback` scans the four relaxed filter sets in order
— dates dropped, then section, then source, then all — returns the first
non-failing retrieval annotated with that strategy's name, and rethrows the
original error unchanged if all four fail. -/
theorem retrieveWithFallback_relaxation_order
    (R : Text → Option RetrievalFilters → Except RetrievalError (List RetrievedChunk))
    (query : Text) (f : RetrievalFilters) (options : FallbackOptions)
    (e0 : RetrievalError)
    (h0 : R query (some f) = Except.error e0)
    (hcode : e0.code = RetrievalErrorCode.EmptyResults)
    (hrelax : options.enableFilterRelaxation = true)
    (hexp : options.enableQueryExpansion = false) :
    retrieveWithFallback R query (some f) options =
      match firstOk (R query) (relaxedFilterList f) with
      | some (i, cs) =>
        Except.ok { chunks := cs, fallbackUsed := true,
                    fallbackStrategy := some ((strategyNames f).getD i []),
                    originalError := some e0 }
      | none => Except.error e0 := by
  rw [retrieveWithFallback, h0]
  simp only [relaxedFilterList, strategyNames]
  rw [if_pos ⟨hcode, by rw [hrelax]⟩]
  rw [tryStrategies_eq_firstOk]
  cases hF : firstOk (R query) ((relaxationStrategies f).map (fun s => s.1)) with
  | none =>
    simp only []
    rw [if_neg (by rw [hexp]; exact fun hc => by simpa using hc.2)]
  | some pr =>
    obtain ⟨i, cs⟩ := pr
    rfl

/-- Witness for `retrieveWithFallback_relaxation_order`: with an oracle that
fails under every filter set and succeeds with none, the controller walks all
four strategies and returns the fourth, annotated "removed all filters". -/
theorem retrieveWithFallback_relaxation_order_witness :
    (sampleRetrieve "q".toList (some sampleFilters) = Except.error emptyErr ∧
      emptyErr.code = RetrievalErrorCode.EmptyResults ∧
      sampleFallbackOptions.enableFilterRelaxation = true ∧
      sampleFallbackOptions.enableQueryExpansion = false) ∧
    retrieveWithFallback sampleRetrieve "q".toList (some sampleFilters)
        sampleFallbackOptions =
      Except.ok { chunks := [sampleChunk], fallbackUsed := true,
                  fallbackStrategy := some "removed all filters".toList,
                  originalError := some emptyErr } := by
  refine ⟨⟨rfl, rfl, rfl, rfl⟩, ?_⟩
  rw [retrieveWithFallback_relaxation_order sampleRetrieve "q".toList
    sampleFilters sampleFallbackOptions emptyErr rfl rfl rfl rfl]
  rfl

/-! ## Claim C7: the 5×200-token assembly scenario -/

theorem two_le_estimateCitationTokens (cid : Text) :
    2 ≤ estimateCitationTokens cid := by
  rw [estimateCitationTokens, ceilDiv]
  omega

theorem packLoop_cons (avail : ℤ) (inc : Bool) (c : RetrievedChunk)
    (rest selected : List RetrievedChunk) (total : ℤ) :
    packLoop avail inc (c :: rest) selected total =
      (let citationTokens := if inc then estimateCitationTokens c.id else 0
       let requiredTokens := c.tokens + citationTokens
       if total + requiredTokens ≤ avail then
         packLoop avail inc rest (c :: selected) (total + requiredTokens)
       else
         let remainingTokens := avail - total - citationTokens
         if 50 < remainingTokens ∧ selected.length = 0 then
           let tchunk := truncateChunk c remainingTokens
           ((tchunk :: selected).reverse, total + tchunk.tokens + citationTokens,
             true)
         else (selected.reverse, total, false)) := rfl

/-- Claim C7: assembling five 200-token chunks (nonnegative scores, citation
overhead at most 150 tokens each) under `tokenBudget = 500`,
`reservedTokens = 150` selects exactly one chunk, reports `truncated = false`,
and stays within the 350 available tokens: the first chunk plus its citation
fits, the second cannot, and no truncation happens because a chunk was
already selected. -/
theorem assembleContext_budget_scenario (chunks : List RetrievedChunk)
    (hlen : chunks.length = 5)
    (htok : ∀ c ∈ chunks, c.tokens = 200)
    (hscore : ∀ c ∈ chunks, 0 ≤ c.score)
    (hcit : ∀ c ∈ chunks, estimateCitationTokens c.id ≤ 150) :
    (assembleContext chunks budgetCaseOpts).chunks.length = 1 ∧
    (assembleContext chunks budgetCaseOpts).truncated = false ∧
    (assembleContext chunks budgetCaseOpts).totalTokens ≤ 350 := by
  have hfilter : chunks.filter (fun c => decide ((0 : ℚ) ≤ c.score)) = chunks :=
    List.filter_eq_self.mpr (fun c hc => decide_eq_true (hscore c hc))
  have hslen : (jsSortBy (fun x y => decide (y.score ≤ x.score)) chunks).length
      = 5 := by
    rw [length_jsSortBy, hlen]
  obtain ⟨a, t1, hs1⟩ := List.exists_cons_of_ne_nil
    (show jsSortBy (fun x y => decide (y.score ≤ x.score)) chunks ≠ [] by
      intro h
      rw [h] at hslen
      simp at hslen)
  have ht1len : t1.length = 4 := by
    rw [hs1] at hslen
    simpa using hslen
  obtain ⟨b, t2, hs2⟩ := List.exists_cons_of_ne_nil
    (show t1 ≠ [] by
      intro h
      rw [h] at ht1len
      simp at ht1len)
  rw [hs2] at hs1 ht1len
  have ht2len : t2.length = 3 := by simpa using ht1len
  have hamem : a ∈ chunks :=
    (mem_jsSortBy (fun x y => decide (y.score ≤ x.score)) a chunks).mp
      (hs1 ▸ List.mem_cons_self a (b :: t2))
  have hbmem : b ∈ chunks :=
    (mem_jsSortBy (fun x y => decide (y.score ≤ x.score)) b chunks).mp
      (hs1 ▸ List.mem_cons_of_mem a (List.mem_cons_self b t2))
  have hatok := htok a hamem
  have hbtok := htok b hbmem
  have hacit := hcit a hamem
  have h2a := two_le_estimateCitationTokens a.id
  have h2b := two_le_estimateCitationTokens b.id
  have hpack : packLoop 350 true (a :: b :: t2) [] 0 =
      ([a], 200 + estimateCitationTokens a.id, false) := by
    simp only [packLoop_cons, reduceIte, List.length_cons, List.length_nil]
    split
    · split
      · exfalso
        omega
      · split
        · exfalso
          omega
        · simp [hatok]
    · exfalso
      omega
  have hA : assembleContext chunks budgetCaseOpts =
      { context := joinSep "\n\n---\n\n".toList (List.map (contextPart true) [a])
        chunks := [a]
        totalTokens := 200 + estimateCitationTokens a.id
        truncated := false } := by
    simp only [assembleContext, budgetCaseOpts]
    have havail : max (100 : ℤ) (500 - 150) = 350 := by decide
    simp only [havail]
    rw [if_neg (show ¬(chunks.length = 0) by omega)]
    simp only [hfilter, hs1]
    have htake : (a :: b :: t2).take 20 = a :: b :: t2 :=
      List.take_of_length_le (by simp [ht2len])
    simp only [htake]
    rw [if_neg (show ¬((a :: b :: t2).length = 0) by simp)]
    simp only [hpack]
    rw [if_neg (show ¬(([a] : List RetrievedChunk).length = 0) by simp)]
  refine ⟨?_, ?_, ?_⟩
  · rw [hA]
    rfl
  · rw [hA]
  · rw [hA]
    show 200 + estimateCitationTokens a.id ≤ 350
    omega

/-- Witness for `assembleContext_budget_scenario`: the five concrete
200-token chunks satisfy every hypothesis and the scenario conclusion. -/
theorem assembleContext_budget_scenario_witness :
    ((budgetChunks.length = 5) ∧
     (∀ c ∈ budgetChunks, c.tokens = 200) ∧
     (∀ c ∈ budgetChunks, 0 ≤ c.score) ∧
     (∀ c ∈ budgetChunks, estimateCitationTokens c.id ≤ 150)) ∧
    ((assembleContext budgetChunks budgetCaseOpts).chunks.length = 1 ∧
     (assembleContext budgetChunks budgetCaseOpts).truncated = false ∧
     (assembleContext budgetChunks budgetCaseOpts).totalTokens ≤ 350) :=
  ⟨⟨by decide, by decide, by decide, by decide⟩,
    assembleContext_budget_scenario budgetChunks (by decide) (by decide)
      (by decide) (by decide)⟩

/-- Claim C8: the adapter's retry policy.  (1) A 200 reply whose embedding
has the wrong length fails at once with a dimension mismatch — one attempt,
no backoff.  (2) Five straight 429 replies exhaust all 5 attempts with
delays 1000, 2000, 4000, 8000 and 10000 ms (exponential, capped at 10 s)
before the final failure.  (3) Five straight connection errors exhaust all
5 attempts with delays 1000, 2000, 4000 and 5000 ms (capped at 5 s) and end
in the `Ollama unavailable` error naming the endpoint. -/
theorem embedSingle_retry_policy :
    (∀ (config : OllamaConfig) (fetchAt : Nat → FetchOutcome) (emb : List ℚ),
      fetchAt 1 = FetchOutcome.reply 200 (some emb) →
      (emb.length : ℤ) ≠ config.expectedDim →
      embedSingle config fetchAt =
        { result := Except.error
            (EmbedError.dimensionMismatch config.expectedDim emb.length),
          attemptsUsed := 1, delays := [] }) ∧
    (∀ (config : OllamaConfig) (fetchAt : Nat → FetchOutcome),
      (∀ a, 1 ≤ a → a ≤ 5 → fetchAt a = FetchOutcome.reply 429 none) →
      embedSingle config fetchAt =
        { result := Except.error EmbedError.exhausted, attemptsUsed := 5,
          delays := [1000, 2000, 4000, 8000, 10000] }) ∧
    (∀ (config : OllamaConfig) (fetchAt : Nat → FetchOutcome),
      (∀ a, 1 ≤ a → a ≤ 5 → fetchAt a = FetchOutcome.connError) →
      embedSingle config fetchAt =
        { result := Except.error
            (EmbedError.unavailable config.baseUrl config.model),
          attemptsUsed := 5, delays := [1000, 2000, 4000, 5000] }) := by
  refine ⟨?_, ?_, ?_⟩
  · intro config fetchAt emb h1 hdim
    rw [embedSingle, show (4 : Nat) = 3 + 1 from rfl, embedLoop, h1]
    show (if (emb.length : ℤ) ≠ config.expectedDim then
        ({ result := Except.error
             (EmbedError.dimensionMismatch config.expectedDim emb.length),
           attemptsUsed := 0 + 1, delays := [] } : EmbedRun)
      else
        { result := Except.ok emb, attemptsUsed := 0 + 1, delays := [] }) = _
    rw [if_pos hdim]
  · intro config fetchAt h
    have s1 : embedSingle config fetchAt =
        embedLoop config fetchAt 3 2 none [1000] 1 := by
      rw [embedSingle, show (4 : Nat) = 3 + 1 from rfl, embedLoop,
        h 1 (by omega) (by omega)]
      rfl
    have s2 : embedLoop config fetchAt 3 2 none [1000] 1 =
        embedLoop config fetchAt 2 3 none [1000, 2000] 2 := by
      conv_lhs => rw [show (3 : Nat) = 2 + 1 from rfl, embedLoop,
        h 2 (by omega) (by omega)]
      rfl
    have s3 : embedLoop config fetchAt 2 3 none [1000, 2000] 2 =
        embedLoop config fetchAt 1 4 none [1000, 2000, 4000] 3 := by
      conv_lhs => rw [show (2 : Nat) = 1 + 1 from rfl, embedLoop,
        h 3 (by omega) (by omega)]
      rfl
    have s4 : embedLoop config fetchAt 1 4 none [1000, 2000, 4000] 3 =
        embedLoop config fetchAt 0 5 none [1000, 2000, 4000, 8000] 4 := by
      conv_lhs => rw [show (1 : Nat) = 0 + 1 from rfl, embedLoop,
        h 4 (by omega) (by omega)]
      rfl
    have s5 : embedLoop config fetchAt 0 5 none [1000, 2000, 4000, 8000] 4 =
        { result := Except.error EmbedError.exhausted, attemptsUsed := 5,
          delays := [1000, 2000, 4000, 8000, 10000] } := by
      conv_lhs => rw [embedLoop, h 5 (by omega) (by omega)]
      rfl
    exact s1.trans (s2.trans (s3.trans (s4.trans s5)))
  · intro config fetchAt h
    have s1 : embedSingle config fetchAt =
        embedLoop config fetchAt 3 2 (some EmbedError.connFailure) [1000] 1 := by
      rw [embedSingle, show (4 : Nat) = 3 + 1 from rfl, embedLoop,
        h 1 (by omega) (by omega)]
      rfl
    have s2 : embedLoop config fetchAt 3 2 (some EmbedError.connFailure) [1000] 1 =
        embedLoop config fetchAt 2 3 (some EmbedError.connFailure) [1000, 2000] 2 := by
      conv_lhs => rw [show (3 : Nat) = 2 + 1 from rfl, embedLoop,
        h 2 (by omega) (by omega)]
      rfl
    have s3 : embedLoop config fetchAt 2 3 (some EmbedError.connFailure) [1000, 2000] 2 =
        embedLoop config fetchAt 1 4 (some EmbedError.connFailure) [1000, 2000, 4000] 3 := by
      conv_lhs => rw [show (2 : Nat) = 1 + 1 from rfl, embedLoop,
        h 3 (by omega) (by omega)]
      rfl
    have s4 : embedLoop config fetchAt 1 4 (some EmbedError.connFailure) [1000, 2000, 4000] 3 =
        embedLoop config fetchAt 0 5 (some EmbedError.connFailure) [1000, 2000, 4000, 5000] 4 := by
      conv_lhs => rw [show (1 : Nat) = 0 + 1 from rfl, embedLoop,
        h 4 (by omega) (by omega)]
      rfl
    have s5 : embedLoop config fetchAt 0 5 (some EmbedError.connFailure)
        [1000, 2000, 4000, 5000] 4 =
        { result := Except.error
            (EmbedError.unavailable config.baseUrl config.model),
          attemptsUsed := 5, delays := [1000, 2000, 4000, 5000] } := by
      conv_lhs => rw [embedLoop, h 5 (by omega) (by omega)]
    exact s1.trans (s2.trans (s3.trans (s4.trans s5)))

/-- Witness for `embedSingle_retry_policy` at the three concrete oracles. -/
theorem embedSingle_retry_policy_witness :
    (mismatchFetch 1 = FetchOutcome.reply 200 (some [1, 2]) ∧
      ((([1, 2] : List ℚ).length : ℤ) ≠ sampleOllamaConfig.expectedDim) ∧
      embedSingle sampleOllamaConfig mismatchFetch =
        { result := Except.error (EmbedError.dimensionMismatch 3 2),
          attemptsUsed := 1, delays := [] }) ∧
    (embedSingle sampleOllamaConfig rateLimitedFetch =
      { result := Except.error EmbedError.exhausted, attemptsUsed := 5,
        delays := [1000, 2000, 4000, 8000, 10000] }) ∧
    (embedSingle sampleOllamaConfig downFetch =
      { result := Except.error
          (EmbedError.unavailable sampleOllamaConfig.baseUrl
            sampleOllamaConfig.model),
        attemptsUsed := 5, delays := [1000, 2000, 4000, 5000] }) := by
  refine ⟨⟨rfl, by decide, ?_⟩, ?_, ?_⟩
  · exact embedSingle_retry_policy.1 sampleOllamaConfig mismatchFetch [1, 2]
      rfl (by decide)
  · exact embedSingle_retry_policy.2.1 sampleOllamaConfig rateLimitedFetch
      (fun a _ _ => rfl)
  · exact embedSingle_retry_policy.2.2 sampleOllamaConfig downFetch
      (fun a _ _ => rfl)

end MastraEval
